import Mathlib

/-!
Verification of the chat2plot response-parsing pipeline.

This file gives a shallow embedding, in Lean, of the parsing, normalization
and assembly code of the chat2plot repository (`chat2plot/schema.py`,
`chat2plot/chat2plot.py`), and proves or refutes the frozen claims about it.

Text is modelled as `List Char`.  Python exceptions are modelled by
`Except PyErr`.  The decoding performed by `json.loads` is modelled by an
executable recursive-descent decoder `jsonLoads` that accepts the JSON
fragment relevant here (objects, arrays, strings with simple escapes,
integers, booleans, null); claims about decoding are stated relative to it.
-/

namespace Chat2Plot

/-- Errors raised by the embedded Python code. -/
inductive PyErr where
  /-- `json.JSONDecodeError` (a subclass of `ValueError`) from `json.loads`. -/
  | jsonDecodeError
  /-- `IndexError` from an out-of-range subscript such as `f[0]` on `""`. -/
  | indexError
  /-- `AttributeError` from looking up a missing attribute. -/
  | attributeError
  /-- `AssertionError` from a failed `assert`. -/
  | assertionError
  /-- `ValueError` carrying its message payload. -/
  | valueError (msg : List Char)
  /-- `pydantic.ValidationError` from constructing a model with bad fields. -/
  | validationError
  deriving DecidableEq, Repr

/-! ## Text helpers: Python `str.strip` and substring scanning -/

/-- Whitespace characters stripped by Python `str.strip()` (ASCII range). -/
def isPyWs (c : Char) : Bool :=
  c = ' ' || c = '\t' || c = '\n' || c = '\r' || c = '\x0b' || c = '\x0c'

/-- Left strip: drop leading whitespace. -/
def lstrip (s : List Char) : List Char := s.dropWhile isPyWs

/-- Right strip: drop trailing whitespace. -/
def rstrip : List Char → List Char
  | [] => []
  | c :: t =>
    match rstrip t with
    | [] => if isPyWs c then [] else [c]
    | r => c :: r

/-- Python `str.strip()`: drop whitespace from both ends. -/
def pyStrip (s : List Char) : List Char := rstrip (lstrip s)

/-- Prefix test (equivalent to `List.isPrefixOf`, stated so that it reduces
definitionally on a partially concrete argument). -/
def prefixAt : List Char → List Char → Bool
  | [], _ => true
  | _ :: _, [] => false
  | a :: as, b :: bs => (a == b) && prefixAt as bs

/-- All indices `i` (in increasing order) at which `w` occurs as a
contiguous substring of `s`, i.e. `w` is a prefix of `s.drop i`. -/
def occList (w : List Char) : List Char → List Nat
  | [] => if w = [] then [0] else []
  | c :: cs =>
    (if prefixAt w (c :: cs) then [0] else []) ++ (occList w cs).map (· + 1)

/-- The prefix test agrees with `List.IsPrefix`. -/
theorem prefixAt_iff_prefix {w s : List Char} :
    prefixAt w s = true ↔ List.IsPrefix w s := by
  rw [show prefixAt w s = w.isPrefixOf s by
    induction w generalizing s with
    | nil => cases s <;> rfl
    | cons a as ih =>
      cases s with
      | nil => rfl
      | cons b bs => simp [prefixAt, List.isPrefixOf, ih]]
  exact List.isPrefixOf_iff_prefix

/-- Least index at which `w` occurs in `s` (`occList` is increasing). -/
def findFirstSub (w s : List Char) : Option Nat := (occList w s).head?

/-- Greatest index `≥ start` at which `w` occurs in `s`
(`occList` is increasing, so this is the last element of the filtered list). -/
def findLastSubFrom (w s : List Char) (start : Nat) : Option Nat :=
  ((occList w s).filter (fun i => decide (start ≤ i))).getLast?

/-- Greatest index at which `w` occurs in `s`. -/
def findLastSub (w s : List Char) : Option Nat := (occList w s).getLast?

/-- Python `w in s` substring test. -/
def containsSub (w s : List Char) : Bool := !(occList w s).isEmpty

/-! ## JSON values and the `json.loads` model -/

/-- Decoded JSON values.  Numbers are restricted to integers, which is the
only numeric shape the claims exercise. -/
inductive Json where
  | null
  | bool (b : Bool)
  | num (n : Int)
  | str (s : List Char)
  | arr (xs : List Json)
  | obj (kvs : List (List Char × Json))
  deriving Repr

/-- Python truthiness of a decoded JSON value (`bool(v)`). -/
def pyFalsy : Json → Bool
  | .null => true
  | .bool b => !b
  | .num n => n = 0
  | .str s => s.isEmpty
  | .arr xs => xs.isEmpty
  | .obj kvs => kvs.isEmpty

def pyTruthy (v : Json) : Bool := !pyFalsy v

/-- `d.get(k)`: first binding of key `k` in the object's entry list. -/
def getKey (kvs : List (List Char × Json)) (k : List Char) : Option Json :=
  match kvs with
  | [] => none
  | (k', v) :: rest => if k' = k then some v else getKey rest k

/-- `d[k] = v`: replace the binding of `k`, or append it. -/
def setKey (kvs : List (List Char × Json)) (k : List Char) (v : Json) :
    List (List Char × Json) :=
  match kvs with
  | [] => [(k, v)]
  | (k', v') :: rest =>
    if k' = k then (k', v) :: rest else (k', v') :: setKey rest k v

/-- `d.get(k) or None`: collapse an absent or falsy value to `none`. -/
def getTruthy (kvs : List (List Char × Json)) (k : List Char) : Option Json :=
  match getKey kvs k with
  | none => none
  | some v => if pyFalsy v then none else some v

/-- JSON whitespace accepted between tokens by `json.loads`. -/
def isJsonWs (c : Char) : Bool :=
  c = ' ' || c = '\t' || c = '\n' || c = '\r'

/-- Decode one escape character inside a JSON string literal. -/
def unescape (c : Char) : Option Char :=
  if c = '"' then some '"'
  else if c = '\\' then some '\\'
  else if c = '/' then some '/'
  else if c = 'n' then some '\n'
  else if c = 't' then some '\t'
  else if c = 'r' then some '\r'
  else none

/-- Scan the body of a JSON string literal up to the closing quote. -/
def scanString : Nat → List Char → Except PyErr (List Char × List Char)
  | 0, _ => .error .jsonDecodeError
  | _, [] => .error .jsonDecodeError
  | fuel + 1, c :: rest =>
    if c = '"' then .ok ([], rest)
    else if c = '\\' then
      match rest with
      | [] => .error .jsonDecodeError
      | e :: rest' =>
        match unescape e with
        | none => .error .jsonDecodeError
        | some d =>
          match scanString fuel rest' with
          | .ok (s, rem) => .ok (d :: s, rem)
          | .error err => .error err
    else
      match scanString fuel rest with
      | .ok (s, rem) => .ok (c :: s, rem)
      | .error err => .error err

/-- Scan a run of decimal digits. -/
def scanDigits : List Char → (List Char × List Char)
  | [] => ([], [])
  | c :: rest =>
    if c.isDigit then
      let (ds, rem) := scanDigits rest
      (c :: ds, rem)
    else ([], c :: rest)

/-- Digits to a natural number value. -/
def digitsToNat (ds : List Char) : Nat :=
  ds.foldl (fun acc c => acc * 10 + (c.toNat - 48)) 0

mutual

/-- One JSON value starting at the head of the input (whitespace already
consumed), returning the value and the unconsumed remainder. -/
def parseValue : Nat → List Char → Except PyErr (Json × List Char)
  | 0, _ => .error .jsonDecodeError
  | fuel + 1, s =>
    match s with
    | [] => .error .jsonDecodeError
    | c :: rest =>
      if c = '{' then
        parseObjItems fuel (rest.dropWhile isJsonWs) true
      else if c = '[' then
        parseArrItems fuel (rest.dropWhile isJsonWs) true
      else if c = '"' then
        match scanString (rest.length + 1) rest with
        | .ok (str, rem) => .ok (.str str, rem)
        | .error e => .error e
      else if c = 't' then
        if ['r', 'u', 'e'].isPrefixOf rest then .ok (.bool true, rest.drop 3)
        else .error .jsonDecodeError
      else if c = 'f' then
        if ['a', 'l', 's', 'e'].isPrefixOf rest then .ok (.bool false, rest.drop 4)
        else .error .jsonDecodeError
      else if c = 'n' then
        if ['u', 'l', 'l'].isPrefixOf rest then .ok (.null, rest.drop 3)
        else .error .jsonDecodeError
      else if c = '-' then
        match scanDigits rest with
        | ([], _) => .error .jsonDecodeError
        | (ds, rem) =>
          match rem with
          | d :: _ =>
            if d = '.' || d = 'e' || d = 'E' then .error .jsonDecodeError
            else .ok (.num (-(digitsToNat ds : Int)), rem)
          | [] => .ok (.num (-(digitsToNat ds : Int)), rem)
      else if c.isDigit then
        match scanDigits (c :: rest) with
        | (ds, rem) =>
          match rem with
          | d :: _ =>
            if d = '.' || d = 'e' || d = 'E' then .error .jsonDecodeError
            else .ok (.num (digitsToNat ds : Int), rem)
          | [] => .ok (.num (digitsToNat ds : Int), rem)
      else .error .jsonDecodeError

/-- Items of a JSON array, after `[`; `first` is true before any item. -/
def parseArrItems : Nat → List Char → Bool → Except PyErr (Json × List Char)
  | 0, _, _ => .error .jsonDecodeError
  | fuel + 1, s, first =>
    match s with
    | [] => .error .jsonDecodeError
    | c :: rest =>
      if first ∧ c = ']' then .ok (.arr [], rest)
      else
        match parseValue fuel (s.dropWhile isJsonWs) with
        | .error e => .error e
        | .ok (v, rem) =>
          match rem.dropWhile isJsonWs with
          | ']' :: rem' => .ok (.arr [v], rem')
          | ',' :: rem' =>
            match parseArrItems fuel (rem'.dropWhile isJsonWs) false with
            | .ok (.arr vs, rem'') => .ok (.arr (v :: vs), rem'')
            | .ok _ => .error .jsonDecodeError
            | .error e => .error e
          | _ => .error .jsonDecodeError

/-- Members of a JSON object, after `{`; `first` is true before any member. -/
def parseObjItems : Nat → List Char → Bool → Except PyErr (Json × List Char)
  | 0, _, _ => .error .jsonDecodeError
  | fuel + 1, s, first =>
    match s with
    | [] => .error .jsonDecodeError
    | c :: rest =>
      if first ∧ c = '}' then .ok (.obj [], rest)
      else if c = '"' then
        match scanString (rest.length + 1) rest with
        | .error e => .error e
        | .ok (key, rem) =>
          match rem.dropWhile isJsonWs with
          | ':' :: rem' =>
            match parseValue fuel (rem'.dropWhile isJsonWs) with
            | .error e => .error e
            | .ok (v, rem'') =>
              match rem''.dropWhile isJsonWs with
              | '}' :: rem3 => .ok (.obj [(key, v)], rem3)
              | ',' :: rem3 =>
                match parseObjItems fuel (rem3.dropWhile isJsonWs) false with
                | .ok (.obj kvs, rem4) => .ok (.obj ((key, v) :: kvs), rem4)
                | .ok _ => .error .jsonDecodeError
                | .error e => .error e
              | _ => .error .jsonDecodeError
          | _ => .error .jsonDecodeError
      else .error .jsonDecodeError

end

/-- Model of `json.loads`: decode the whole text as one JSON value, allowing
surrounding whitespace; anything else raises a decode error. -/
def jsonLoads (s : List Char) : Except PyErr Json :=
  let t := s.dropWhile isJsonWs
  match parseValue (t.length + 1) t with
  | .error e => .error e
  | .ok (v, rem) =>
    if rem.dropWhile isJsonWs = [] then .ok v else .error .jsonDecodeError

/-! ## `parse_json` (chat2plot.py lines 340-348)

```python
def parse_json(content: str) -> dict[str, Any]:
    try:
        return json.loads(content)
    except ValueError:
        ptn = r"```json(.*)```" if "```json" in content else r"```(.*)```"
        s = re.search(ptn, content, re.MULTILINE | re.DOTALL)
        if s:
            return json.loads(s.group(1))
        raise
```

With `re.DOTALL`, `re.search(r"OPEN(.*)CLOSE", content)` succeeds iff the
leftmost occurrence of `OPEN` is followed (at or after its end) by an
occurrence of `CLOSE`; the greedy `(.*)` then extends to the last such
occurrence of `CLOSE`.  `fenceSearch` implements exactly that. -/

def fenceOpenJson : List Char := "```json".data

def fenceTicks : List Char := "```".data

/-- `re.search(r"OPEN(.*)CLOSE", content, re.DOTALL)`: the span captured by
the greedy group, if any match exists. -/
def fenceSearch (openT closeT s : List Char) : Option (List Char) :=
  (findFirstSub openT s).bind fun i =>
    (findLastSubFrom closeT s (i + openT.length)).map fun j =>
      (s.drop (i + openT.length)).take (j - (i + openT.length))

/-- `parse_json` from `chat2plot/chat2plot.py`. -/
def parse_json (content : List Char) : Except PyErr Json :=
  match jsonLoads content with
  | .ok v => .ok v
  | .error e =>
    let openT := if containsSub fenceOpenJson content then fenceOpenJson else fenceTicks
    match fenceSearch openT fenceTicks content with
    | some inner => jsonLoads inner
    | none => .error e

/-! ## Enumerations (schema.py lines 15-61)

Each Python `Enum` call `E(value)` raises `ValueError` on an unknown value;
`fromValue` returns `none` there and `enumExcept` turns that into the error. -/

inductive ChartType where
  | pie | scatter | line | bar | area | scalar
  deriving DecidableEq, Repr

def ChartType.fromValue (s : List Char) : Option ChartType :=
  if s = "pie".data then some .pie
  else if s = "scatter".data then some .scatter
  else if s = "line".data then some .line
  else if s = "bar".data then some .bar
  else if s = "area".data then some .area
  else if s = "scalar".data then some .scalar
  else none

inductive AggregationType where
  | SUM | AVG | MIN | MAX | COUNT | COUNTROWS | DISTINCT_COUNT
  deriving DecidableEq, Repr

def AggregationType.fromValue (s : List Char) : Option AggregationType :=
  if s = "SUM".data then some .SUM
  else if s = "AVG".data then some .AVG
  else if s = "MIN".data then some .MIN
  else if s = "MAX".data then some .MAX
  else if s = "COUNT".data then some .COUNT
  else if s = "COUNTROWS".data then some .COUNTROWS
  else if s = "DISTINCT_COUNT".data then some .DISTINCT_COUNT
  else none

/-- `ResponseType` from schema.py lines 34-37.  The enum in the source has
exactly these three members: SUCCESS = "success", UNKNOWN = "unknown",
FAILED_TO_RENDER = "failed to render". -/
inductive ResponseType where
  | SUCCESS | UNKNOWN | FAILED_TO_RENDER
  deriving DecidableEq, Repr

/-- The member list of the `ResponseType` enum as defined in schema.py. -/
def ResponseType.values : List ResponseType := [.SUCCESS, .UNKNOWN, .FAILED_TO_RENDER]

/-- Python attribute lookup `ResponseType.<name>` on the enum class of
schema.py; an unknown member name raises `AttributeError`. -/
def ResponseType.attrLookup (name : List Char) : Option ResponseType :=
  if name = "SUCCESS".data then some .SUCCESS
  else if name = "UNKNOWN".data then some .UNKNOWN
  else if name = "FAILED_TO_RENDER".data then some .FAILED_TO_RENDER
  else none

inductive SortingCriteria where
  | NAME | VALUE
  deriving DecidableEq, Repr

def SortingCriteria.fromValue (s : List Char) : Option SortingCriteria :=
  if s = "name".data then some .NAME
  else if s = "value".data then some .VALUE
  else none

inductive SortOrder where
  | ASC | DESC
  deriving DecidableEq, Repr

def SortOrder.fromValue (s : List Char) : Option SortOrder :=
  if s = "asc".data then some .ASC
  else if s = "desc".data then some .DESC
  else none

inductive TimeUnit where
  | YEAR | MONTH | WEEK | QUARTER | DAY
  deriving DecidableEq, Repr

def TimeUnit.fromValue (s : List Char) : Option TimeUnit :=
  if s = "year".data then some .YEAR
  else if s = "month".data then some .MONTH
  else if s = "week".data then some .WEEK
  else if s = "quarter".data then some .QUARTER
  else if s = "day".data then some .DAY
  else none

inductive BarMode where
  | STACK | GROUP
  deriving DecidableEq, Repr

def BarMode.fromValue (s : List Char) : Option BarMode :=
  if s = "stacked".data then some .STACK
  else if s = "group".data then some .GROUP
  else none

/-- `E(s)` for an enum `E`: unknown value raises `ValueError`. -/
def enumExcept {α : Type} (fromValue : List Char → Option α) (s : List Char) :
    Except PyErr α :=
  match fromValue s with
  | some x => .ok x
  | none => .error (.valueError s)

/-- `E(v)` applied to a decoded JSON value: a non-string value is also a
`ValueError` (it matches no enum member value). -/
def enumFromJson {α : Type} (fromValue : List Char → Option α) (v : Json) :
    Except PyErr α :=
  match v with
  | .str s => enumExcept fromValue s
  | _ => .error (.valueError [])

/-! ## Filter (schema.py lines 63-86) -/

/-- The backtick character (used by `Filter.escaped`). -/
def btick : Char := Char.ofNat 96

structure Filter where
  lhs : List Char
  rhs : List Char
  op : List Char
  deriving DecidableEq, Repr

/-- `Filter.escaped`:
```python
def escaped(self) -> str:
    lhs = f"`{self.lhs}`" if self.lhs[0] != "`" else self.lhs
    return f"{lhs} {self.op} {self.rhs}"
```
`self.lhs[0]` on an empty lhs raises `IndexError`. -/
def Filter.escaped (f : Filter) : Except PyErr (List Char) :=
  match f.lhs with
  | [] => .error .indexError
  | c :: _ =>
    let l := if c = btick then f.lhs else btick :: f.lhs ++ [btick]
    .ok (l ++ [' '] ++ f.op ++ [' '] ++ f.rhs)

/-- The fixed operator priority order scanned by `Filter.parse_from_llm`. -/
def supportedOperators : List (List Char) :=
  ["==".data, "!=".data, ">=".data, "<=".data, ">".data, "<".data]

/-- `re.match(rf"^(.*){op}(.*?)$", f)` (no DOTALL): `.` does not match a
newline, and `$` also matches just before one trailing newline, so the match
exists iff, after discarding at most one trailing newline, the text is
newline-free and contains `op`; the greedy `(.*)` splits at the last
occurrence of `op`. -/
def regexSplitLast (op f : List Char) : Option (List Char × List Char) :=
  let body := if f.getLast? = some '\n' then f.dropLast else f
  if body.contains '\n' then none
  else
    match findLastSub op body with
    | some i => some (body.take i, body.drop (i + op.length))
    | none => none

/-- The operator loop of `Filter.parse_from_llm`: first operator in priority
order whose regex matches wins; both captured groups are stripped. -/
def tryOps : List (List Char) → List Char → Option Filter
  | [], _ => none
  | op :: rest, f =>
    match regexSplitLast op f with
    | some (l, r) => some ⟨pyStrip l, pyStrip r, op⟩
    | none => tryOps rest f

/-- `Filter.parse_from_llm`:
```python
f = f.strip()
if f[0] == "(" and f[-1] == ")":
    f = f[1:-1]
supported_operators = ["==", "!=", ">=", "<=", ">", "<"]
for op in supported_operators:
    m = re.match(rf"^(.*){op}(.*?)$", f)
    if m:
        return Filter(lhs=m.group(1).strip(), rhs=m.group(2).strip(), op=op)
raise ValueError(f"Unsupported op or failed to parse: {f}")
```
`f[0]` raises `IndexError` when the stripped text is empty. -/
def parseStripped (c : Char) (t : List Char) : Except PyErr Filter :=
  let f1 := c :: t
  let f2 := if c = '(' ∧ f1.getLast? = some ')' then (f1.drop 1).dropLast else f1
  match tryOps supportedOperators f2 with
  | some flt => .ok flt
  | none => .error (.valueError f2)

def Filter.parse_from_llm (f0 : List Char) : Except PyErr Filter :=
  match pyStrip f0 with
  | [] => .error .indexError
  | c :: t => parseStripped c t

/-! ## Pydantic field coercions

The axis models declare `column: str`, `bin_size: int | None`,
`min_value: float | None`, `label: str | None`.  Pydantic v1 accepts a
string for a `str` field and stringifies a number; `None` for a plain `str`
field is a validation error.  Numeric fields accept numbers (modelled as
integers here) and `None`; other shapes fail validation. -/

/-- Required `str` field: `none` (Python `None`) fails validation. -/
def coerceStr (v : Option Json) : Except PyErr (List Char) :=
  match v with
  | some (.str s) => .ok s
  | some (.num n) => .ok (toString n).data
  | _ => .error .validationError

/-- Optional numeric field (`int | None` / `float | None`). -/
def optNum (v : Option Json) : Except PyErr (Option Int) :=
  match v with
  | none => .ok none
  | some .null => .ok none
  | some (.num n) => .ok (some n)
  | some _ => .error .validationError

/-- Optional `str` field. -/
def optStr (v : Option Json) : Except PyErr (Option (List Char)) :=
  match v with
  | none => .ok none
  | some .null => .ok none
  | some (.str s) => .ok (some s)
  | some (.num n) => .ok (some (toString n).data)
  | some _ => .error .validationError

/-- Optional `bool` field. -/
def optBool (v : Option Json) : Except PyErr (Option Bool) :=
  match v with
  | none => .ok none
  | some .null => .ok none
  | some (.bool b) => .ok (some b)
  | some _ => .error .validationError

/-! ## XAxis (schema.py lines 89-121) -/

/-- `XAxis`; `min_value`/`max_value` are numeric (`float | None` in the
source, integers in this model). -/
structure XAxis where
  column : List Char
  bin_size : Option Int
  time_unit : Option TimeUnit
  min_value : Option Int
  max_value : Option Int
  label : Option (List Char)
  deriving DecidableEq, Repr

/-- `XAxis.parse_from_llm`:
```python
return XAxis(
    column=d.get("column") or None,
    min_value=d.get("min_value"),
    max_value=d.get("max_value"),
    label=d.get("label") or None,
    bin_size=d.get("bin_size") or None,
    time_unit=TimeUnit(d["time_unit"]) if d.get("time_unit") else None,
)
```
The `TimeUnit(...)` argument expression is evaluated (and may raise
`ValueError`) before pydantic validates the fields. -/
def XAxis.parse_from_llm (d : List (List Char × Json)) : Except PyErr XAxis :=
  (match getTruthy d "time_unit".data with
    | none => pure none
    | some v => some <$> enumFromJson TimeUnit.fromValue v) >>= fun tu =>
  coerceStr (getTruthy d "column".data) >>= fun column =>
  optNum (getTruthy d "bin_size".data) >>= fun bin =>
  optNum (getKey d "min_value".data) >>= fun minv =>
  optNum (getKey d "max_value".data) >>= fun maxv =>
  optStr (getTruthy d "label".data) >>= fun label =>
  pure ⟨column, bin, tu, minv, maxv, label⟩

/-! ## YAxis (schema.py lines 124-161) -/

structure YAxis where
  column : List Char
  aggregation : Option AggregationType
  min_value : Option Int
  max_value : Option Int
  label : Option (List Char)
  deriving DecidableEq, Repr

/-- Python `agg == "COUNTROWS"` on a decoded value. -/
def jsonEqStr (v : Json) (s : List Char) : Bool :=
  match v with
  | .str s' => s' = s
  | _ => false

/-- The value of `agg` after the three rewriting branches of
`YAxis.parse_from_llm`:
```python
agg = d.get("aggregation")
if needs_aggregation and not agg:
    agg = "AVG"
if not d.get("column") and needs_aggregation:
    agg = "COUNTROWS"
elif agg == "COUNTROWS":
    agg = "COUNT"
``` -/
def aggResolved (d : List (List Char × Json)) (needs_aggregation : Bool) :
    Json :=
  let agg0 : Json := (getKey d "aggregation".data).getD .null
  let agg1 : Json :=
    if needs_aggregation ∧ pyFalsy agg0 then .str "AVG".data else agg0
  if pyFalsy ((getKey d "column".data).getD .null) ∧ needs_aggregation then
    .str "COUNTROWS".data
  else if jsonEqStr agg1 "COUNTROWS".data then .str "COUNT".data
  else agg1

/-- `YAxis.parse_from_llm`:
```python
return YAxis(
    column=d.get("column") or "",
    aggregation=AggregationType(agg) if agg else None,
    min_value=d.get("min_value"),
    max_value=d.get("max_value"),
    label=d.get("label") or None,
)
``` -/
def YAxis.parse_from_llm (d : List (List Char × Json))
    (needs_aggregation : Bool) : Except PyErr YAxis :=
  let agg2 : Json := aggResolved d needs_aggregation
  (if pyFalsy agg2 then pure none
   else some <$> enumFromJson AggregationType.fromValue agg2) >>= fun aggregation =>
  (match getTruthy d "column".data with
    | none => pure []
    | some v => coerceStr (some v)) >>= fun column =>
  optNum (getKey d "min_value".data) >>= fun minv =>
  optNum (getKey d "max_value".data) >>= fun maxv =>
  optStr (getTruthy d "label".data) >>= fun label =>
  pure ⟨column, aggregation, minv, maxv, label⟩

/-! ## PlotConfig (schema.py lines 164-242) -/

structure PlotConfig where
  chart_type : ChartType
  filters : List (List Char)
  x : Option XAxis
  y : YAxis
  color : Option (List Char)
  bar_mode : Option BarMode
  sort_criteria : Option SortingCriteria
  sort_order : Option SortOrder
  horizontal : Option Bool
  limit : Option Int
  deriving DecidableEq, Repr

/-- `wrap_if_not_list` from `PlotConfig.from_json`. -/
def wrap_if_not_list (v : Json) : List Json :=
  match v with
  | .arr xs => xs
  | x => if pyFalsy x then [] else [x]

/-- Each filter element is validated against `list[str]` by pydantic. -/
def coerceFilterElems : List Json → Except PyErr (List (List Char))
  | [] => .ok []
  | v :: rest => do
    let s ← coerceStr (some v)
    let tail ← coerceFilterElems rest
    pure (s :: tail)

/-- Lowercase for `str.lower()` (ASCII). -/
def lowerChars (s : List Char) : List Char := s.map Char.toLower

/-- The chart-type coercion of `PlotConfig.from_json`:
```python
if not json_data["chart_type"] or json_data["chart_type"].lower() == "none":
    chart_type = ChartType.BAR
else:
    chart_type = ChartType(json_data["chart_type"])
```
A truthy non-string raises `AttributeError` from `.lower()`. -/
def ctStep (kvs0 : List (List Char × Json)) : Except PyErr ChartType :=
  let ctv := (getKey kvs0 "chart_type".data).getD .null
  if pyFalsy ctv then pure ChartType.bar
  else
    match ctv with
    | .str s =>
      if lowerChars s = "none".data then pure ChartType.bar
      else enumExcept ChartType.fromValue s
    | _ => .error .attributeError

/-- The pie-chart fix-up of `PlotConfig.from_json`:
```python
if not json_data.get("x") and chart_type == ChartType.PIE:
    json_data["x"] = copy.deepcopy(json_data["y"])
``` -/
def pieFix (kvs0 : List (List Char × Json)) (chart_type : ChartType) :
    List (List Char × Json) :=
  if pyFalsy ((getKey kvs0 "x".data).getD .null) ∧ chart_type = ChartType.pie
  then setKey kvs0 "x".data ((getKey kvs0 "y".data).getD .null)
  else kvs0

/-- `XAxis.parse_from_llm(json_data["x"]) if json_data.get("x") else None`. -/
def xStep (kvs : List (List Char × Json)) : Except PyErr (Option XAxis) :=
  match getTruthy kvs "x".data with
  | none => pure none
  | some (.obj d) => some <$> XAxis.parse_from_llm d
  | some _ => .error .attributeError

/-- `YAxis.parse_from_llm(json_data["y"], chart_type != ChartType.SCATTER)`. -/
def yStep (kvs : List (List Char × Json)) (chart_type : ChartType) :
    Except PyErr YAxis :=
  match getKey kvs "y".data with
  | some (.obj d) => YAxis.parse_from_llm d (chart_type ≠ ChartType.scatter)
  | some _ => .error .attributeError
  | none => .error .assertionError

/-- `BarMode(json_data["bar_mode"]) if json_data.get("bar_mode") else None`. -/
def bmStep (kvs : List (List Char × Json)) : Except PyErr (Option BarMode) :=
  match getTruthy kvs "bar_mode".data with
  | none => pure none
  | some v => some <$> enumFromJson BarMode.fromValue v

/-- `SortingCriteria(...) if json_data.get("sort_criteria") else None`. -/
def scStep (kvs : List (List Char × Json)) :
    Except PyErr (Option SortingCriteria) :=
  match getTruthy kvs "sort_criteria".data with
  | none => pure none
  | some v => some <$> enumFromJson SortingCriteria.fromValue v

/-- `SortOrder(...) if json_data.get("sort_order") else None`. -/
def soStep (kvs : List (List Char × Json)) : Except PyErr (Option SortOrder) :=
  match getTruthy kvs "sort_order".data with
  | none => pure none
  | some v => some <$> enumFromJson SortOrder.fromValue v

/-- `PlotConfig.from_json` (schema.py lines 200-242).  The two leading
`assert`s require the `chart_type` and `y` keys; a non-dict argument fails
the first membership test the same way.  The steps run in source order
(chart-type coercion, pie fix-up, x, y, filters, color, bar mode, sorting,
horizontal, limit) and the first exception aborts assembly. -/
def PlotConfig.from_json (j : Json) : Except PyErr PlotConfig :=
  match j with
  | .obj kvs0 =>
    if (getKey kvs0 "chart_type".data).isNone then .error .assertionError
    else if (getKey kvs0 "y".data).isNone then .error .assertionError
    else
      ctStep kvs0 >>= fun chart_type =>
      let kvs := pieFix kvs0 chart_type
      xStep kvs >>= fun x =>
      yStep kvs chart_type >>= fun y =>
      coerceFilterElems
        (wrap_if_not_list ((getKey kvs "filters".data).getD (.arr []))) >>= fun filters =>
      optStr (getTruthy kvs "color".data) >>= fun color =>
      bmStep kvs >>= fun bar_mode =>
      scStep kvs >>= fun sort_criteria =>
      soStep kvs >>= fun sort_order =>
      optBool (getKey kvs "horizontal".data) >>= fun horizontal =>
      optNum (getKey kvs "limit".data) >>= fun limit =>
      pure ⟨chart_type, filters, x, y, color, bar_mode, sort_criteria,
            sort_order, horizontal, limit⟩
  | _ => .error .assertionError

/-! ## The controller (chat2plot.py lines 173-282)

`chat2plot.py` imports `LLMResponse` from `chat2plot.schema`, but schema.py
defines no such class; its shape below is modelled from the spec.  The chat
model and the renderer are external collaborators and are passed in as
functions; a renderer error models the `except Exception` around
`self.render`. -/

/-- Conversation messages, owned by the session in chronological order. -/
inductive Message where
  | system (content : List Char)
  | human (content : List Char)
  | ai (content : List Char)
  deriving DecidableEq, Repr

/-- Modelled from the spec: the `LLMResponse` carrier imported by
chat2plot.py from schema.py but missing there.  The spec's ParseOutcome
carries the response type and, on success, the chart config; the
construction sites are `LLMResponse(ResponseType.X)` and
`LLMResponse(ResponseType.SUCCESS, config)`. -/
structure LLMResponse where
  response_type : ResponseType
  config : Option PlotConfig := none
  deriving DecidableEq, Repr

/-- `Chat2Plot._parse_response` (chat2plot.py lines 270-282):
```python
def _parse_response(self, content: str) -> LLMResponse:
    if content == "not related":
        return LLMResponse(ResponseType.NOT_RELATED)
    try:
        config = PlotConfig.from_json(parse_json(content))
        return LLMResponse(ResponseType.SUCCESS, config)
    except Exception:
        return LLMResponse(ResponseType.UNKNOWN)
```
`ResponseType.NOT_RELATED` is an attribute lookup on the enum class of
schema.py, which has no such member, so that branch raises
`AttributeError`; the `try` block is entered only on other inputs and
converts every parse/validation exception into an UNKNOWN outcome. -/
def parse_response (content : List Char) : Except PyErr LLMResponse :=
  if content = "not related".data then
    match ResponseType.attrLookup "NOT_RELATED".data with
    | some rt => .ok ⟨rt, none⟩
    | none => .error .attributeError
  else
    match (parse_json content).bind PlotConfig.from_json with
    | .ok config => .ok ⟨.SUCCESS, some config⟩
    | .error _ => .ok ⟨.UNKNOWN, none⟩

/-- `ChatSession.query` for a `Chat2Plot` session (user prompt template
`"<{text}>"`): append the human message, call the model on the whole
history, append and return its reply. -/
def sessionQuery (chat : List Message → List Char) (history : List Message)
    (q : List Char) : List Char × List Message :=
  let prompt := '<' :: (q ++ ['>'])
  let h1 := history ++ [.human prompt]
  let response := chat h1
  (response, h1 ++ [.ai response])

/-- The `Plot` result dataclass (chat2plot.py lines 173-178).  The figure
produced by the render boundary is abstracted to `Unit`. -/
structure Plot where
  figure : Option Unit
  config : Option PlotConfig
  response_type : ResponseType
  raw_response : List Char
  deriving DecidableEq, Repr

/-- `Chat2Plot.query` (chat2plot.py lines 243-260):
```python
def query(self, q: str, show_plot: bool = True) -> Plot:
    raw_response = self._session.query(q)
    res = self._parse_response(raw_response)
    if res.response_type == ResponseType.SUCCESS:
        assert res.config is not None
        try:
            return Plot(self.render(...), res.config, res.response_type, raw_response)
        except Exception:
            return Plot(None, res.config, ResponseType.FAILED_TO_RENDER, raw_response)
    return Plot(None, None, res.response_type, raw_response)
```
Returns the produced `Plot` together with the session history after the
call; an uncaught exception from `_parse_response` propagates. -/
def query (chat : List Message → List Char)
    (render : PlotConfig → Except PyErr Unit) (history : List Message)
    (q : List Char) : Except PyErr (Plot × List Message) :=
  let (raw, history') := sessionQuery chat history q
  match parse_response raw with
  | .error e => .error e
  | .ok res =>
    if res.response_type = .SUCCESS then
      match res.config with
      | none => .error .assertionError
      | some cfg =>
        match render cfg with
        | .ok fig => .ok (⟨some fig, some cfg, res.response_type, raw⟩, history')
        | .error _ => .ok (⟨none, some cfg, .FAILED_TO_RENDER, raw⟩, history')
    else .ok (⟨none, none, res.response_type, raw⟩, history')

/-! ## Lemmas about stripping -/

theorem lstrip_cons_ws {c : Char} (t : List Char) (h : isPyWs c = true) :
    lstrip (c :: t) = lstrip t := by
  simp [lstrip, List.dropWhile_cons, h]

theorem lstrip_cons_not_ws {c : Char} (t : List Char) (h : isPyWs c = false) :
    lstrip (c :: t) = c :: t := by
  simp [lstrip, List.dropWhile_cons, h]

theorem lstrip_head_not_ws {s : List Char} {c : Char} {t : List Char}
    (h : lstrip s = c :: t) : isPyWs c = false := by
  induction s with
  | nil => simp [lstrip] at h
  | cons a s ih =>
    by_cases ha : isPyWs a = true
    · rw [lstrip_cons_ws s ha] at h; exact ih h
    · rw [lstrip_cons_not_ws s (by simpa using ha)] at h
      cases h; simpa using ha

theorem lstrip_idem (s : List Char) : lstrip (lstrip s) = lstrip s := by
  cases h : lstrip s with
  | nil => simp [lstrip]
  | cons c t => exact lstrip_cons_not_ws t (lstrip_head_not_ws h)

theorem lstrip_append_eq (a b : List Char) :
    lstrip (a ++ b) = if lstrip a = [] then lstrip b else lstrip a ++ b := by
  induction a with
  | nil => simp [lstrip]
  | cons c a ih =>
    by_cases hc : isPyWs c = true
    · rw [List.cons_append, lstrip_cons_ws _ hc, lstrip_cons_ws _ hc, ih]
    · rw [List.cons_append, lstrip_cons_not_ws _ (by simpa using hc),
        lstrip_cons_not_ws _ (by simpa using hc)]
      simp

theorem rstrip_cons_eq (c : Char) (t : List Char) :
    rstrip (c :: t) =
      (match rstrip t with
       | [] => if isPyWs c then [] else [c]
       | r => c :: r) := rfl

theorem rstrip_cons_of_nil {t : List Char} (c : Char) (h : rstrip t = []) :
    rstrip (c :: t) = if isPyWs c then [] else [c] := by
  rw [rstrip_cons_eq, h]

theorem rstrip_cons_of_cons {t : List Char} (c : Char) {d : Char}
    {r : List Char} (h : rstrip t = d :: r) :
    rstrip (c :: t) = c :: d :: r := by
  rw [rstrip_cons_eq, h]

theorem rstrip_head {l : List Char} (h : rstrip l ≠ []) :
    (rstrip l).head? = l.head? := by
  cases l with
  | nil => exact absurd rfl h
  | cons c t =>
    cases ht : rstrip t with
    | nil =>
      rw [rstrip_cons_of_nil c ht] at h ⊢
      by_cases hc : isPyWs c = true
      · simp [hc] at h
      · simp [hc]
    | cons d r => rw [rstrip_cons_of_cons c ht]; simp

theorem rstrip_isPre (l : List Char) : List.IsPrefix (rstrip l) l := by
  induction l with
  | nil => simp [rstrip]
  | cons c t ih =>
    cases ht : rstrip t with
    | nil =>
      rw [rstrip_cons_of_nil c ht]
      by_cases hc : isPyWs c = true
      · simp [hc]
      · simp [hc]
    | cons d r =>
      rw [rstrip_cons_of_cons c ht]
      rw [ht] at ih
      exact (List.prefix_cons_inj c).mpr ih

theorem rstrip_last_not_ws {s : List Char} {c : Char}
    (h : (rstrip s).getLast? = some c) : isPyWs c = false := by
  induction s with
  | nil => simp [rstrip] at h
  | cons a t ih =>
    cases ht : rstrip t with
    | nil =>
      rw [rstrip_cons_of_nil a ht] at h
      by_cases ha : isPyWs a = true
      · simp [ha] at h
      · simp [ha] at h
        cases h; simpa using ha
    | cons d r =>
      rw [rstrip_cons_of_cons a ht, List.getLast?_cons_cons, ← ht] at h
      exact ih h

theorem rstrip_eq_self_of_last {s : List Char} {c : Char}
    (h : s.getLast? = some c) (hc : isPyWs c = false) : rstrip s = s := by
  induction s with
  | nil => simp at h
  | cons a t ih =>
    cases t with
    | nil =>
      simp at h
      subst h
      rw [@rstrip_cons_of_nil [] a rfl]
      simp [hc]
    | cons b t' =>
      rw [List.getLast?_cons_cons] at h
      exact rstrip_cons_of_cons a (ih h)

theorem rstrip_idem (s : List Char) : rstrip (rstrip s) = rstrip s := by
  cases h : (rstrip s).getLast? with
  | none =>
    have : rstrip s = [] := by
      cases hr : rstrip s with
      | nil => rfl
      | cons c t => rw [hr] at h; simp at h
    rw [this]; rfl
  | some c => exact rstrip_eq_self_of_last h (rstrip_last_not_ws h)

theorem rstrip_append_eq (a b : List Char) :
    rstrip (a ++ b) = if rstrip b = [] then rstrip a else a ++ rstrip b := by
  induction a with
  | nil =>
    simp only [List.nil_append]
    by_cases hb : rstrip b = [] <;> simp [hb, rstrip]
  | cons c a ih =>
    rw [List.cons_append]
    by_cases hb : rstrip b = []
    · rw [if_pos hb] at ih ⊢
      cases ha : rstrip a with
      | nil =>
        rw [rstrip_cons_of_nil c (ha ▸ ih), rstrip_cons_of_nil c ha]
      | cons d r =>
        rw [rstrip_cons_of_cons c (ha ▸ ih), rstrip_cons_of_cons c ha]
    · rw [if_neg hb] at ih ⊢
      cases hr : a ++ rstrip b with
      | nil =>
        rcases List.append_eq_nil.mp hr with ⟨-, h2⟩
        exact absurd h2 hb
      | cons d r =>
        rw [rstrip_cons_of_cons c (hr ▸ ih), List.cons_append, hr]

theorem lstrip_rstrip_comm (s : List Char) :
    lstrip (rstrip s) = rstrip (lstrip s) := by
  induction s with
  | nil => rfl
  | cons c t ih =>
    by_cases hc : isPyWs c = true
    · rw [lstrip_cons_ws t hc]
      cases ht : rstrip t with
      | nil =>
        rw [rstrip_cons_of_nil c ht, if_pos hc]
        have h0 : rstrip (lstrip t) = [] := by rw [← ih, ht]; rfl
        rw [h0]
        rfl
      | cons d r =>
        rw [rstrip_cons_of_cons c ht, lstrip_cons_ws _ hc, ← ht, ih]
    · have hc' : isPyWs c = false := by simpa using hc
      rw [lstrip_cons_not_ws t hc']
      cases ht : rstrip t with
      | nil =>
        rw [rstrip_cons_of_nil c ht, if_neg (by simp [hc'])]
        exact lstrip_cons_not_ws [] hc'
      | cons d r =>
        rw [rstrip_cons_of_cons c ht, lstrip_cons_not_ws _ hc']

theorem pyStrip_lstrip (s : List Char) : pyStrip (lstrip s) = pyStrip s := by
  simp [pyStrip, lstrip_idem]

theorem pyStrip_rstrip (s : List Char) : pyStrip (rstrip s) = pyStrip s := by
  simp only [pyStrip]
  rw [← lstrip_rstrip_comm, rstrip_idem, lstrip_rstrip_comm]

/-- Stripping a string whose middle block starts and ends with
non-whitespace characters only strips the two outer parts. -/
theorem pyStrip_sandwich (l r : List Char) {mh : Char} {mt : List Char}
    {ml : Char} (hh : isPyWs mh = false)
    (hl : (mh :: mt).getLast? = some ml) (hw : isPyWs ml = false) :
    pyStrip (l ++ (mh :: mt) ++ r) = lstrip l ++ (mh :: mt) ++ rstrip r := by
  have hmr : rstrip (mh :: mt) = mh :: mt := rstrip_eq_self_of_last hl hw
  have h1 : lstrip (l ++ ((mh :: mt) ++ r)) = lstrip l ++ ((mh :: mt) ++ r) := by
    rw [lstrip_append_eq]
    by_cases he : lstrip l = []
    · rw [if_pos he, he, List.nil_append, List.cons_append]
      exact lstrip_cons_not_ws _ hh
    · rw [if_neg he]
  have h2 : rstrip ((lstrip l ++ (mh :: mt)) ++ r) =
      (lstrip l ++ (mh :: mt)) ++ rstrip r := by
    rw [rstrip_append_eq]
    by_cases hr : rstrip r = []
    · rw [if_pos hr, hr, List.append_nil, rstrip_append_eq, hmr,
        if_neg (by simp)]
    · rw [if_neg hr]
  show rstrip (lstrip (l ++ (mh :: mt) ++ r)) = _
  rw [List.append_assoc, h1, ← List.append_assoc, h2, List.append_assoc]

/-! ## Lemmas about substring occurrences -/

theorem occList_mem_decomp {w s : List Char} {i : Nat} (h : i ∈ occList w s) :
    ∃ u v, s = u ++ w ++ v ∧ u.length = i := by
  induction s generalizing i with
  | nil =>
    simp only [occList] at h
    by_cases hw : w = []
    · rw [if_pos hw] at h
      simp at h
      subst h hw
      exact ⟨[], [], rfl, rfl⟩
    · rw [if_neg hw] at h; simp at h
  | cons c cs ih =>
    simp only [occList] at h
    rcases List.mem_append.mp h with h0 | h1
    · by_cases hp : prefixAt w (c :: cs) = true
      · rw [if_pos hp] at h0
        simp at h0
        subst h0
        rcases prefixAt_iff_prefix.mp hp with ⟨v, hv⟩
        exact ⟨[], v, by rw [List.nil_append, hv], rfl⟩
      · rw [if_neg hp] at h0; simp at h0
    · rcases List.mem_map.mp h1 with ⟨j, hj, rfl⟩
      rcases ih hj with ⟨u, v, rfl, rfl⟩
      exact ⟨c :: u, v, by simp, by simp⟩

theorem occList_mem_of_decomp (w : List Char) :
    ∀ (u v : List Char), u.length ∈ occList w (u ++ w ++ v) := by
  intro u
  induction u with
  | nil =>
    intro v
    by_cases hw : w = []
    · subst hw
      cases v with
      | nil => simp [occList]
      | cons d v' => simp [occList, prefixAt]
    · obtain ⟨a, w', rfl⟩ : ∃ a w', w = a :: w' := by
        cases w with
        | nil => exact absurd rfl hw
        | cons a w' => exact ⟨a, w', rfl⟩
      have heq : ([] : List Char) ++ (a :: w') ++ v = a :: (w' ++ v) := by simp
      rw [heq]
      have hp : prefixAt (a :: w') (a :: (w' ++ v)) = true :=
        prefixAt_iff_prefix.mpr ⟨v, by simp⟩
      simp only [occList, List.length_nil]
      rw [if_pos hp]
      simp
  | cons c u' ih =>
    intro v
    have : (c :: u') ++ w ++ v = c :: (u' ++ w ++ v) := by simp
    rw [this]
    simp only [occList, List.length_cons]
    refine List.mem_append.mpr (Or.inr ?_)
    exact List.mem_map.mpr ⟨u'.length, ih v, rfl⟩

theorem occList_sorted (w : List Char) : ∀ s, (occList w s).Sorted (· < ·) := by
  intro s
  induction s with
  | nil => by_cases hw : w = [] <;> simp [occList, hw]
  | cons c cs ih =>
    have hmap : ((occList w cs).map (· + 1)).Sorted (· < ·) := by
      rw [List.Sorted, List.pairwise_map]
      exact ih.imp (by omega)
    simp only [occList]
    by_cases hp : prefixAt w (c :: cs) = true
    · rw [if_pos hp]
      simp only [List.singleton_append]
      refine List.sorted_cons.mpr ⟨?_, hmap⟩
      intro b hb
      rcases List.mem_map.mp hb with ⟨j, -, rfl⟩
      omega
    · rw [if_neg hp]
      simpa using hmap

theorem getLast?_eq_of_sorted_max {l : List Nat} {x : Nat}
    (hs : l.Sorted (· < ·)) (hm : x ∈ l) (hmax : ∀ y ∈ l, y ≤ x) :
    l.getLast? = some x := by
  induction l with
  | nil => simp at hm
  | cons a t ih =>
    cases t with
    | nil =>
      simp at hm
      simp [hm]
    | cons b t' =>
      rw [List.getLast?_cons_cons]
      have hst : (b :: t').Sorted (· < ·) := (List.sorted_cons.mp hs).2
      have hab : ∀ y ∈ b :: t', a < y := (List.sorted_cons.mp hs).1
      have hxm : x ∈ b :: t' := by
        rcases List.mem_cons.mp hm with rfl | h
        · exfalso
          have hb : b ≤ x := hmax b (by simp)
          have : x < b := hab b (by simp)
          omega
        · exact h
      exact ih hst hxm (fun y hy => hmax y (List.mem_cons_of_mem a hy))

theorem occList_append_shift {w : List Char} {c : Char} (hw : w.head? = some c) :
    ∀ {x : List Char}, c ∉ x → ∀ y,
      occList w (x ++ y) = (occList w y).map (· + x.length) := by
  intro x
  induction x with
  | nil =>
    intro _ y
    simp
  | cons d x' ih =>
    intro hx y
    have hcd : c ≠ d := fun h => hx (h ▸ List.mem_cons_self d x')
    have hcx : c ∉ x' := fun h => hx (List.mem_cons_of_mem d h)
    have hp : prefixAt w (d :: (x' ++ y)) = false := by
      cases w with
      | nil => simp at hw
      | cons e w' =>
        simp only [List.head?_cons, Option.some_inj] at hw
        subst hw
        simp [prefixAt, hcd]
    simp only [List.cons_append, occList, List.append_eq]
    rw [if_neg (by simp [hp])]
    rw [List.nil_append, ih hcx y, List.map_map]
    refine List.map_congr_left ?_
    intro a _
    simp only [Function.comp_apply, List.length_cons]
    omega

theorem occList_ne_nil_of_w_ne_nil {w : List Char} (hw : w ≠ []) :
    occList w [] = [] := by
  simp [occList, hw]

theorem occList_eq_nil_of_head_not_mem {w s : List Char} {c : Char}
    (hw : w.head? = some c) (hs : c ∉ s) : occList w s = [] := by
  have h := occList_append_shift hw hs []
  rw [List.append_nil] at h
  have hwn : w ≠ [] := by
    intro he
    rw [he] at hw
    simp at hw
  rw [h, occList_ne_nil_of_w_ne_nil hwn]
  rfl

theorem occList_eq_nil_of_count_lt {w s : List Char} {c : Char}
    (h : s.count c < w.count c) : occList w s = [] := by
  cases ho : occList w s with
  | nil => rfl
  | cons i l =>
    exfalso
    have hi : i ∈ occList w s := ho ▸ List.mem_cons_self i l
    rcases occList_mem_decomp hi with ⟨u, v, heq, -⟩
    rw [heq] at h
    rw [List.count_append, List.count_append] at h
    omega

/-- Any occurrence of `op` in `a ++ op ++ b` starts at or before `a.length`,
provided neither the first nor the last character of `op` occurs in `b`. -/
theorem occList_le_of_tail_clean {op b : List Char} {c₀ c₁ : Char}
    {op' : List Char} (hop : op = c₀ :: op') (hlast : op.getLast? = some c₁)
    (hb₀ : c₀ ∉ b) (hb₁ : c₁ ∉ b) (a : List Char) :
    ∀ i ∈ occList op (a ++ op ++ b), i ≤ a.length := by
  intro i hi
  rcases occList_mem_decomp hi with ⟨u, v, heq, hlen⟩
  by_contra hgt
  push_neg at hgt
  have h₀ : (a ++ op ++ b)[i]? = some c₀ := by
    rw [heq, List.append_assoc, List.getElem?_append_right (by omega : u.length ≤ i),
      hlen]
    simp [hop]
  have h₁ : (a ++ op ++ b)[i + op'.length]? = some c₁ := by
    rw [heq, List.append_assoc,
      List.getElem?_append_right (by omega : u.length ≤ i + op'.length), hlen]
    have : i + op'.length - i = op'.length := by omega
    rw [this]
    rw [List.getElem?_append_left (by simp [hop] : op'.length < op.length)]
    rw [List.getLast?_eq_getElem?] at hlast
    simpa [hop] using hlast
  by_cases hcase : a.length + op.length ≤ i
  · have : (a ++ op ++ b)[i]? = b[i - (a.length + op.length)]? := by
      rw [List.getElem?_append_right (by simp; omega : (a ++ op).length ≤ i)]
      simp
    rw [this] at h₀
    exact hb₀ (List.getElem?_mem h₀)
  · have hj : a.length + op.length ≤ i + op'.length := by
      simp only [hop, List.length_cons] at hcase ⊢
      omega
    have : (a ++ op ++ b)[i + op'.length]? = b[i + op'.length - (a.length + op.length)]? := by
      rw [List.getElem?_append_right (by simp; omega : (a ++ op).length ≤ i + op'.length)]
      simp
    rw [this] at h₁
    exact hb₁ (List.getElem?_mem h₁)

/-- Exact last-occurrence position for a text of the shape `a ++ op ++ b`
with `b` clean: the greedy regex split point. -/
theorem findLastSub_sandwich {op b : List Char} {c₀ c₁ : Char}
    {op' : List Char} (hop : op = c₀ :: op') (hlast : op.getLast? = some c₁)
    (hb₀ : c₀ ∉ b) (hb₁ : c₁ ∉ b) (a : List Char) :
    findLastSub op (a ++ op ++ b) = some a.length := by
  unfold findLastSub
  exact getLast?_eq_of_sorted_max (occList_sorted op _)
    (occList_mem_of_decomp op a b)
    (occList_le_of_tail_clean hop hlast hb₀ hb₁ a)

theorem mem_of_getLast?_eq {l : List Char} {c : Char}
    (h : l.getLast? = some c) : c ∈ l := by
  rw [List.getLast?_eq_getElem?] at h
  exact List.getElem?_mem h

/-! ## Adjacent equals signs

Tools to show that `"=="` does not occur in a filter string built from two
copies of an operator whose second character is `'='`. -/

/-- True iff the text contains two adjacent equals signs. -/
def hasAdjEq : List Char → Bool
  | x :: y :: t => ((x == '=') && (y == '=')) || hasAdjEq (y :: t)
  | _ => false

theorem hasAdjEq_append_of {l : List Char} (u : List Char)
    (h : hasAdjEq l = true) : hasAdjEq (u ++ l) = true := by
  induction u with
  | nil => exact h
  | cons c u' ih =>
    rw [List.cons_append]
    cases hu : u' ++ l with
    | nil =>
      rcases List.append_eq_nil.mp hu with ⟨rfl, rfl⟩
      simp [hasAdjEq] at h
    | cons y t =>
      rw [hu] at ih
      simp only [hasAdjEq]
      rw [ih]
      simp

theorem hasAdjEq_append_no_eq {a : List Char} (ha : '=' ∉ a) (l : List Char) :
    hasAdjEq (a ++ l) = hasAdjEq l := by
  induction a with
  | nil => rfl
  | cons c a' ih =>
    have hc : c ≠ '=' := fun h => ha (by rw [h]; exact List.mem_cons_self _ _)
    have ha' : '=' ∉ a' := fun h => ha (List.mem_cons_of_mem c h)
    rw [List.cons_append]
    cases hu : a' ++ l with
    | nil =>
      rcases List.append_eq_nil.mp hu with ⟨rfl, rfl⟩
      simp [hasAdjEq]
    | cons y t =>
      simp only [hasAdjEq]
      have hcf : (c == '=') = false := by simp [hc]
      rw [hcf]
      simp only [Bool.false_and, Bool.false_or]
      rw [← hu, ih ha']

theorem hasAdjEq_cons_eq {b : List Char} (hb : b.head? ≠ some '=') :
    hasAdjEq ('=' :: b) = hasAdjEq b := by
  cases b with
  | nil => rfl
  | cons y t =>
    have hy : (y == '=') = false := by
      simp only [List.head?_cons, ne_eq, Option.some_inj] at hb
      simp [hb]
    simp only [hasAdjEq, hy]
    simp

theorem hasAdjEq_false_of_not_mem {l : List Char} (h : '=' ∉ l) :
    hasAdjEq l = false := by
  induction l with
  | nil => rfl
  | cons c t ih =>
    have hc : (c == '=') = false := by
      simp only [beq_eq_false_iff_ne, ne_eq]
      intro hce
      exact h (by rw [hce]; exact List.mem_cons_self _ _)
    cases t with
    | nil => rfl
    | cons y t' =>
      simp only [hasAdjEq, hc, Bool.false_and, Bool.false_or]
      exact ih (fun hm => h (List.mem_cons_of_mem c hm))

theorem occList_eqeq_eq_nil {s : List Char} (h : hasAdjEq s = false) :
    occList "==".data s = [] := by
  cases ho : occList "==".data s with
  | nil => rfl
  | cons i l =>
    exfalso
    have hi : i ∈ occList "==".data s := ho ▸ List.mem_cons_self i l
    rcases occList_mem_decomp hi with ⟨u, v, heq, -⟩
    have htrue : hasAdjEq s = true := by
      rw [heq, List.append_assoc]
      exact hasAdjEq_append_of u (by simp [hasAdjEq])
    rw [htrue] at h
    cases h

theorem head?_append_cons_ne {a₂ : List Char} {d : Char} (hd : d ≠ '=')
    (h₂ : '=' ∉ a₂) (l : List Char) : (a₂ ++ d :: l).head? ≠ some '=' := by
  cases a₂ with
  | nil => simpa using hd
  | cons y t =>
    simp only [List.cons_append, List.head?_cons, ne_eq, Option.some_inj]
    intro hy
    exact h₂ (by rw [hy]; exact List.mem_cons_self _ _)

/-- A text of the shape `a₁ ++ [d,'='] ++ a₂ ++ [d,'='] ++ b` with `'='`-free
surroundings and `d ≠ '='` has no two adjacent equals signs. -/
theorem hasAdjEq_two_blocks {d : Char} (hd : d ≠ '=') {a₁ a₂ b : List Char}
    (h₁ : '=' ∉ a₁) (h₂ : '=' ∉ a₂) (h₃ : '=' ∉ b) :
    hasAdjEq (a₁ ++ [d, '='] ++ a₂ ++ [d, '='] ++ b) = false := by
  have hdf : (d == '=') = false := by simp [hd]
  have hassoc : a₁ ++ [d, '='] ++ a₂ ++ [d, '='] ++ b =
      a₁ ++ (d :: '=' :: (a₂ ++ (d :: '=' :: b))) := by simp
  rw [hassoc, hasAdjEq_append_no_eq h₁]
  simp only [hasAdjEq, hdf, Bool.false_and, Bool.false_or]
  rw [hasAdjEq_cons_eq (head?_append_cons_ne hd h₂ ('=' :: b)),
    hasAdjEq_append_no_eq h₂]
  simp only [hasAdjEq, hdf, Bool.false_and, Bool.false_or]
  cases b with
  | nil => rfl
  | cons y t =>
    have hy : (y :: t).head? ≠ some '=' := by
      simp only [List.head?_cons, ne_eq, Option.some_inj]
      intro hye
      exact h₃ (by rw [hye]; exact List.mem_cons_self _ _)
    rw [hasAdjEq_cons_eq hy]
    exact hasAdjEq_false_of_not_mem h₃

/-! ## Evaluating the filter operator scan -/

/-- Characters from which the supported operators are built. -/
def opChars : List Char := "=!<>".data

/-- A side of a filter expression that contains no operator characters and
no newline: the shape under which the regex scan is exactly characterized. -/
def sideClean (l : List Char) : Prop := ∀ c ∈ l, c ∉ opChars ∧ c ≠ '\n'

instance (l : List Char) : Decidable (sideClean l) := by
  unfold sideClean
  infer_instance

theorem contains_eq_false_of_not_mem {l : List Char} {c : Char} (h : c ∉ l) :
    l.contains c = false := by
  simpa using h

theorem regexSplitLast_of_clean {op L R : List Char} {c₀ c₁ : Char}
    {op' : List Char} (hop : op = c₀ :: op') (hlast : op.getLast? = some c₁)
    (hnl : '\n' ∉ L ++ op ++ R) (hR₀ : c₀ ∉ R) (hR₁ : c₁ ∉ R) :
    regexSplitLast op (L ++ op ++ R) = some (L, R) := by
  have hgl : ¬((L ++ op ++ R).getLast? = some '\n') := fun h =>
    hnl (mem_of_getLast?_eq h)
  have hcontains := contains_eq_false_of_not_mem hnl
  have htake : (L ++ op ++ R).take L.length = L := by
    rw [List.append_assoc]
    exact List.take_left L (op ++ R)
  have hdrop : (L ++ op ++ R).drop (L.length + op.length) = R :=
    List.drop_left' (by simp)
  unfold regexSplitLast
  rw [if_neg hgl, if_neg (by rw [hcontains]; simp),
    findLastSub_sandwich hop hlast hR₀ hR₁ L]
  simp [htake, hdrop]

theorem regexSplitLast_none_of_occ_nil {opE f : List Char}
    (hnl : '\n' ∉ f) (hocc : occList opE f = []) :
    regexSplitLast opE f = none := by
  have hgl : ¬(f.getLast? = some '\n') := fun h => hnl (mem_of_getLast?_eq h)
  have hcontains := contains_eq_false_of_not_mem hnl
  unfold regexSplitLast
  rw [if_neg hgl, if_neg (by rw [hcontains]; simp)]
  unfold findLastSub
  rw [hocc]
  rfl

theorem tryOps_append_none {f : List Char} :
    ∀ {ops₁ : List (List Char)}, (∀ o ∈ ops₁, regexSplitLast o f = none) →
      ∀ ops₂, tryOps (ops₁ ++ ops₂) f = tryOps ops₂ f := by
  intro ops₁
  induction ops₁ with
  | nil => intro _ ops₂; rfl
  | cons o os ih =>
    intro h ops₂
    rw [List.cons_append]
    simp only [tryOps]
    rw [h o (List.mem_cons_self _ _)]
    exact ih (fun o' ho' => h o' (List.mem_cons_of_mem _ ho')) ops₂

theorem tryOps_cons_of_some {op f : List Char} {l r : List Char}
    (h : regexSplitLast op f = some (l, r)) (rest : List (List Char)) :
    tryOps (op :: rest) f = some ⟨pyStrip l, pyStrip r, op⟩ := by
  simp only [tryOps, h]

theorem occList_nil_by_count {L R op o : List Char} {c : Char}
    (hcL : L.count c = 0) (hcR : R.count c = 0)
    (hlt : op.count c < o.count c) :
    occList o (L ++ op ++ R) = [] :=
  occList_eq_nil_of_count_lt
    (by rw [List.count_append, List.count_append, hcL, hcR]; omega)

/-- Core evaluation of `Filter.parse_from_llm` on a text of the shape
`lhs ++ op ++ rhs` whose sides are clean: the scan reaches `op` (all
earlier-priority operators fail to match), the regex splits exactly at the
operator, and both captured sides are stripped. -/
theorem parse_single_op_core {lhs op rhs : List Char} {c₀ c₁ : Char}
    {op' : List Char}
    (hop : op = c₀ :: op') (hlast : op.getLast? = some c₁)
    (hc₀ : c₀ ∈ opChars) (hc₁ : c₁ ∈ opChars)
    (hopnws : ∀ c ∈ op, isPyWs c = false ∧ c ≠ '\n')
    (hsplitops : ∃ pre post, supportedOperators = pre ++ op :: post ∧
      ∀ o ∈ pre, occList o (lstrip lhs ++ op ++ rstrip rhs) = [])
    (hl : sideClean lhs) (hr : sideClean rhs)
    (hne : pyStrip lhs ≠ []) (hpar : (pyStrip lhs).head? ≠ some '(') :
    Filter.parse_from_llm (lhs ++ op ++ rhs) =
      .ok ⟨pyStrip lhs, pyStrip rhs, op⟩ := by
  obtain ⟨pre, post, hops, hprenil⟩ := hsplitops
  have hlL : ∀ c ∈ lstrip lhs, c ∉ opChars ∧ c ≠ '\n' := fun c hc =>
    hl c ((List.dropWhile_suffix isPyWs).subset hc)
  have hrR : ∀ c ∈ rstrip rhs, c ∉ opChars ∧ c ≠ '\n' := fun c hc =>
    hr c ((rstrip_isPre rhs).subset hc)
  have hc₀mem : c₀ ∈ op := by rw [hop]; exact List.mem_cons_self _ _
  have hc₁mem : c₁ ∈ op := mem_of_getLast?_eq hlast
  have hh : isPyWs c₀ = false := (hopnws c₀ hc₀mem).1
  have hwlast : isPyWs c₁ = false := (hopnws c₁ hc₁mem).1
  have hsand : pyStrip (lhs ++ op ++ rhs) = lstrip lhs ++ op ++ rstrip rhs := by
    rw [hop] at hlast ⊢
    exact pyStrip_sandwich lhs rhs hh hlast hwlast
  have hpyl : pyStrip lhs = rstrip (lstrip lhs) := rfl
  have hrLne : rstrip (lstrip lhs) ≠ [] := hpyl ▸ hne
  have hLne : lstrip lhs ≠ [] := by
    intro h
    exact hrLne (by rw [h]; rfl)
  obtain ⟨lc, lt, hLeq⟩ : ∃ lc lt, lstrip lhs = lc :: lt := by
    cases hL : lstrip lhs with
    | nil => exact absurd hL hLne
    | cons lc lt => exact ⟨lc, lt, rfl⟩
  have hheadL : (lstrip lhs).head? = (pyStrip lhs).head? := by
    rw [hpyl]
    exact (rstrip_head hrLne).symm
  have hlcpar : lc ≠ '(' := by
    intro h
    apply hpar
    rw [← hheadL, hLeq, h]
    rfl
  have hnl : '\n' ∉ lstrip lhs ++ op ++ rstrip rhs := by
    intro hmem
    rcases List.mem_append.mp hmem with h1 | h2
    · rcases List.mem_append.mp h1 with ha | hb
      · exact (hlL _ ha).2 rfl
      · exact (hopnws _ hb).2 rfl
    · exact (hrR _ h2).2 rfl
  have hR₀ : c₀ ∉ rstrip rhs := fun h => (hrR c₀ h).1 hc₀
  have hR₁ : c₁ ∉ rstrip rhs := fun h => (hrR c₁ h).1 hc₁
  have hsand' : pyStrip (lhs ++ op ++ rhs) = lc :: (lt ++ op ++ rstrip rhs) := by
    rw [hsand, hLeq]
    simp
  have hstep : Filter.parse_from_llm (lhs ++ op ++ rhs) =
      parseStripped lc (lt ++ op ++ rstrip rhs) := by
    unfold Filter.parse_from_llm
    rw [hsand']
  rw [hstep]
  simp only [parseStripped]
  rw [if_neg (fun h => hlcpar h.1)]
  have hback : lc :: (lt ++ op ++ rstrip rhs) = lstrip lhs ++ op ++ rstrip rhs := by
    rw [hLeq]
    simp
  rw [hback, hops,
    tryOps_append_none
      (fun o ho => regexSplitLast_none_of_occ_nil hnl (hprenil o ho)) _,
    tryOps_cons_of_some (regexSplitLast_of_clean hop hlast hnl hR₀ hR₁) post,
    pyStrip_lstrip, pyStrip_rstrip]

theorem count_zero_of_no_opChars {l : List Char}
    (h : ∀ c ∈ l, c ∉ opChars) {c : Char} (hc : c ∈ opChars) :
    l.count c = 0 :=
  List.count_eq_zero.mpr (fun hm => (h c hm) hc)

/-- For every supported operator, the earlier-priority operators do not
occur in a clean single-occurrence filter string. -/
theorem supported_pre_nil {L R : List Char} (hL : ∀ c ∈ L, c ∉ opChars)
    (hR : ∀ c ∈ R, c ∉ opChars) {op : List Char}
    (hmem : op ∈ supportedOperators) :
    ∃ pre post, supportedOperators = pre ++ op :: post ∧
      ∀ o ∈ pre, occList o (L ++ op ++ R) = [] := by
  have key : ∀ (o : List Char) (c : Char), c ∈ opChars →
      op.count c < o.count c → occList o (L ++ op ++ R) = [] :=
    fun o c hc hlt =>
      occList_nil_by_count (count_zero_of_no_opChars hL hc)
        (count_zero_of_no_opChars hR hc) hlt
  simp only [supportedOperators, List.mem_cons, List.not_mem_nil, or_false] at hmem
  rcases hmem with rfl | rfl | rfl | rfl | rfl | rfl
  · exact ⟨[], _, rfl, by simp⟩
  · refine ⟨["==".data], _, rfl, ?_⟩
    intro o ho
    simp only [List.mem_singleton] at ho
    subst ho
    exact key _ '=' (by decide) (by decide)
  · refine ⟨["==".data, "!=".data], _, rfl, ?_⟩
    intro o ho
    simp only [List.mem_cons, List.mem_singleton, List.not_mem_nil, or_false] at ho
    rcases ho with rfl | rfl
    · exact key _ '=' (by decide) (by decide)
    · exact key _ '!' (by decide) (by decide)
  · refine ⟨["==".data, "!=".data, ">=".data], _, rfl, ?_⟩
    intro o ho
    simp only [List.mem_cons, List.mem_singleton, List.not_mem_nil, or_false] at ho
    rcases ho with rfl | rfl | rfl
    · exact key _ '=' (by decide) (by decide)
    · exact key _ '!' (by decide) (by decide)
    · exact key _ '>' (by decide) (by decide)
  · refine ⟨["==".data, "!=".data, ">=".data, "<=".data], _, rfl, ?_⟩
    intro o ho
    simp only [List.mem_cons, List.mem_singleton, List.not_mem_nil, or_false] at ho
    rcases ho with rfl | rfl | rfl | rfl
    · exact key _ '=' (by decide) (by decide)
    · exact key _ '!' (by decide) (by decide)
    · exact key _ '=' (by decide) (by decide)
    · exact key _ '<' (by decide) (by decide)
  · refine ⟨["==".data, "!=".data, ">=".data, "<=".data, ">".data], _, rfl, ?_⟩
    intro o ho
    simp only [List.mem_cons, List.mem_singleton, List.not_mem_nil, or_false] at ho
    rcases ho with rfl | rfl | rfl | rfl | rfl
    · exact key _ '=' (by decide) (by decide)
    · exact key _ '!' (by decide) (by decide)
    · exact key _ '>' (by decide) (by decide)
    · exact key _ '=' (by decide) (by decide)
    · exact key _ '>' (by decide) (by decide)

/-- `Filter.parse_from_llm` on a clean single-occurrence filter string:
the result splits exactly at the operator and strips both sides. -/
theorem parse_single_op {lhs op rhs : List Char}
    (hmem : op ∈ supportedOperators)
    (hl : sideClean lhs) (hr : sideClean rhs)
    (hne : pyStrip lhs ≠ []) (hpar : (pyStrip lhs).head? ≠ some '(') :
    Filter.parse_from_llm (lhs ++ op ++ rhs) =
      .ok ⟨pyStrip lhs, pyStrip rhs, op⟩ := by
  have hL : ∀ c ∈ lstrip lhs, c ∉ opChars := fun c hc =>
    (hl c ((List.dropWhile_suffix isPyWs).subset hc)).1
  have hR : ∀ c ∈ rstrip rhs, c ∉ opChars := fun c hc =>
    (hr c ((rstrip_isPre rhs).subset hc)).1
  have hdisp := supported_pre_nil hL hR hmem
  have hmem' := hmem
  simp only [supportedOperators, List.mem_cons, List.not_mem_nil, or_false] at hmem'
  rcases hmem' with rfl | rfl | rfl | rfl | rfl | rfl
  · exact parse_single_op_core
      (show ("==".data : List Char) = '=' :: ['='] from rfl)
      (show ("==".data : List Char).getLast? = some '=' from rfl)
      (by decide) (by decide) (by decide) hdisp hl hr hne hpar
  · exact parse_single_op_core
      (show ("!=".data : List Char) = '!' :: ['='] from rfl)
      (show ("!=".data : List Char).getLast? = some '=' from rfl)
      (by decide) (by decide) (by decide) hdisp hl hr hne hpar
  · exact parse_single_op_core
      (show (">=".data : List Char) = '>' :: ['='] from rfl)
      (show (">=".data : List Char).getLast? = some '=' from rfl)
      (by decide) (by decide) (by decide) hdisp hl hr hne hpar
  · exact parse_single_op_core
      (show ("<=".data : List Char) = '<' :: ['='] from rfl)
      (show ("<=".data : List Char).getLast? = some '=' from rfl)
      (by decide) (by decide) (by decide) hdisp hl hr hne hpar
  · exact parse_single_op_core
      (show (">".data : List Char) = '>' :: [] from rfl)
      (show (">".data : List Char).getLast? = some '>' from rfl)
      (by decide) (by decide) (by decide) hdisp hl hr hne hpar
  · exact parse_single_op_core
      (show ("<".data : List Char) = '<' :: [] from rfl)
      (show ("<".data : List Char).getLast? = some '<' from rfl)
      (by decide) (by decide) (by decide) hdisp hl hr hne hpar

theorem pyStrip_lstrip_append (a y : List Char) :
    pyStrip (lstrip a ++ y) = pyStrip (a ++ y) := by
  show rstrip (lstrip (lstrip a ++ y)) = rstrip (lstrip (a ++ y))
  rw [lstrip_append_eq, lstrip_append_eq, lstrip_idem]

/-- Core evaluation of `Filter.parse_from_llm` on a clean filter string
containing two occurrences of the same operator: the greedy `(.*)` splits at
the second (last) occurrence. -/
theorem parse_double_op_core {a₁ a₂ b op : List Char} {c₀ c₁ : Char}
    {op' : List Char}
    (hop : op = c₀ :: op') (hlast : op.getLast? = some c₁)
    (hc₀ : c₀ ∈ opChars) (hc₁ : c₁ ∈ opChars)
    (hopnws : ∀ c ∈ op, isPyWs c = false ∧ c ≠ '\n')
    (hsplitops : ∃ pre post, supportedOperators = pre ++ op :: post ∧
      ∀ o ∈ pre, occList o ((lstrip a₁ ++ op ++ a₂) ++ op ++ rstrip b) = [])
    (h₁ : sideClean a₁) (h₂ : sideClean a₂) (h₃ : sideClean b)
    (hne : pyStrip a₁ ≠ []) (hpar : (pyStrip a₁).head? ≠ some '(') :
    Filter.parse_from_llm (a₁ ++ op ++ a₂ ++ op ++ b) =
      .ok ⟨pyStrip (a₁ ++ op ++ a₂), pyStrip b, op⟩ := by
  obtain ⟨pre, post, hops, hprenil⟩ := hsplitops
  have hlA : ∀ c ∈ lstrip a₁, c ∉ opChars ∧ c ≠ '\n' := fun c hc =>
    h₁ c ((List.dropWhile_suffix isPyWs).subset hc)
  have hrB : ∀ c ∈ rstrip b, c ∉ opChars ∧ c ≠ '\n' := fun c hc =>
    h₃ c ((rstrip_isPre b).subset hc)
  have hc₀mem : c₀ ∈ op := by rw [hop]; exact List.mem_cons_self _ _
  have hc₁mem : c₁ ∈ op := mem_of_getLast?_eq hlast
  have hh : isPyWs c₀ = false := (hopnws c₀ hc₀mem).1
  have hwlast : isPyWs c₁ = false := (hopnws c₁ hc₁mem).1
  have hopne : op ≠ [] := by rw [hop]; simp
  have hlastM : (c₀ :: (op' ++ a₂ ++ op)).getLast? = some c₁ := by
    have hshape : c₀ :: (op' ++ a₂ ++ op) = (c₀ :: (op' ++ a₂)) ++ op := by simp
    rw [hshape, List.getLast?_append_of_ne_nil _ hopne, hlast]
  have hshape : a₁ ++ op ++ a₂ ++ op ++ b =
      a₁ ++ (c₀ :: (op' ++ a₂ ++ op)) ++ b := by
    rw [hop]
    simp
  have hsand2 : pyStrip (a₁ ++ op ++ a₂ ++ op ++ b) =
      (lstrip a₁ ++ op ++ a₂) ++ op ++ rstrip b := by
    rw [hshape, pyStrip_sandwich a₁ b hh hlastM hwlast, hop]
    simp
  have hpyl : pyStrip a₁ = rstrip (lstrip a₁) := rfl
  have hrLne : rstrip (lstrip a₁) ≠ [] := hpyl ▸ hne
  have hLne : lstrip a₁ ≠ [] := by
    intro h
    exact hrLne (by rw [h]; rfl)
  obtain ⟨lc, lt, hLeq⟩ : ∃ lc lt, lstrip a₁ = lc :: lt := by
    cases hL : lstrip a₁ with
    | nil => exact absurd hL hLne
    | cons lc lt => exact ⟨lc, lt, rfl⟩
  have hheadL : (lstrip a₁).head? = (pyStrip a₁).head? := by
    rw [hpyl]
    exact (rstrip_head hrLne).symm
  have hlcpar : lc ≠ '(' := by
    intro h
    apply hpar
    rw [← hheadL, hLeq, h]
    rfl
  have hnl : '\n' ∉ (lstrip a₁ ++ op ++ a₂) ++ op ++ rstrip b := by
    intro hmem
    rcases List.mem_append.mp hmem with h1 | h5
    · rcases List.mem_append.mp h1 with h2 | h4
      · rcases List.mem_append.mp h2 with h2a | h2b
        · rcases List.mem_append.mp h2a with ha | hb
          · exact (hlA _ ha).2 rfl
          · exact (hopnws _ hb).2 rfl
        · exact (h₂ _ h2b).2 rfl
      · exact (hopnws _ h4).2 rfl
    · exact (hrB _ h5).2 rfl
  have hB₀ : c₀ ∉ rstrip b := fun h => (hrB c₀ h).1 hc₀
  have hB₁ : c₁ ∉ rstrip b := fun h => (hrB c₁ h).1 hc₁
  have hsand' : pyStrip (a₁ ++ op ++ a₂ ++ op ++ b) =
      lc :: (lt ++ (op ++ (a₂ ++ (op ++ rstrip b)))) := by
    rw [hsand2, hLeq]
    simp
  have hstep : Filter.parse_from_llm (a₁ ++ op ++ a₂ ++ op ++ b) =
      parseStripped lc (lt ++ (op ++ (a₂ ++ (op ++ rstrip b)))) := by
    unfold Filter.parse_from_llm
    rw [hsand']
  rw [hstep]
  simp only [parseStripped]
  rw [if_neg (fun h => hlcpar h.1)]
  have hback : lc :: (lt ++ (op ++ (a₂ ++ (op ++ rstrip b)))) =
      (lstrip a₁ ++ op ++ a₂) ++ op ++ rstrip b := by
    rw [hLeq]
    simp
  rw [hback, hops,
    tryOps_append_none
      (fun o ho => regexSplitLast_none_of_occ_nil hnl (hprenil o ho)) _,
    tryOps_cons_of_some (regexSplitLast_of_clean hop hlast hnl hB₀ hB₁) post,
    pyStrip_rstrip]
  have hX : lstrip a₁ ++ op ++ a₂ = lstrip a₁ ++ (op ++ a₂) := by simp
  rw [hX, pyStrip_lstrip_append, ← List.append_assoc]

/-- For every supported operator, the earlier-priority operators do not
occur in a clean two-occurrence filter string. -/
theorem supported_pre_nil_double {A a₂ B : List Char}
    (hA : ∀ c ∈ A, c ∉ opChars) (h₂ : ∀ c ∈ a₂, c ∉ opChars)
    (hB : ∀ c ∈ B, c ∉ opChars) {op : List Char}
    (hmem : op ∈ supportedOperators) :
    ∃ pre post, supportedOperators = pre ++ op :: post ∧
      ∀ o ∈ pre, occList o ((A ++ op ++ a₂) ++ op ++ B) = [] := by
  have key : ∀ (o : List Char) (c : Char), c ∈ opChars →
      2 * op.count c < o.count c →
      occList o ((A ++ op ++ a₂) ++ op ++ B) = [] := by
    intro o c hc hlt
    refine @occList_eq_nil_of_count_lt o ((A ++ op ++ a₂) ++ op ++ B) c ?_
    have z1 := count_zero_of_no_opChars hA hc
    have z2 := count_zero_of_no_opChars h₂ hc
    have z3 := count_zero_of_no_opChars hB hc
    rw [List.count_append, List.count_append, List.count_append,
      List.count_append, z1, z2, z3]
    omega
  have hAeq : '=' ∉ A := fun h => hA '=' h (by decide)
  have h₂eq : '=' ∉ a₂ := fun h => h₂ '=' h (by decide)
  have hBeq : '=' ∉ B := fun h => hB '=' h (by decide)
  have keyAdj : ∀ (d : Char), d ≠ '=' → op = [d, '='] →
      occList "==".data ((A ++ op ++ a₂) ++ op ++ B) = [] := by
    intro d hd hop
    subst hop
    exact occList_eqeq_eq_nil (hasAdjEq_two_blocks hd hAeq h₂eq hBeq)
  simp only [supportedOperators, List.mem_cons, List.not_mem_nil, or_false] at hmem
  rcases hmem with rfl | rfl | rfl | rfl | rfl | rfl
  · exact ⟨[], _, rfl, by simp⟩
  · refine ⟨["==".data], _, rfl, ?_⟩
    intro o ho
    simp only [List.mem_singleton] at ho
    subst ho
    exact keyAdj '!' (by decide) rfl
  · refine ⟨["==".data, "!=".data], _, rfl, ?_⟩
    intro o ho
    simp only [List.mem_cons, List.mem_singleton, List.not_mem_nil, or_false] at ho
    rcases ho with rfl | rfl
    · exact keyAdj '>' (by decide) rfl
    · exact key _ '!' (by decide) (by decide)
  · refine ⟨["==".data, "!=".data, ">=".data], _, rfl, ?_⟩
    intro o ho
    simp only [List.mem_cons, List.mem_singleton, List.not_mem_nil, or_false] at ho
    rcases ho with rfl | rfl | rfl
    · exact keyAdj '<' (by decide) rfl
    · exact key _ '!' (by decide) (by decide)
    · exact key _ '>' (by decide) (by decide)
  · refine ⟨["==".data, "!=".data, ">=".data, "<=".data], _, rfl, ?_⟩
    intro o ho
    simp only [List.mem_cons, List.mem_singleton, List.not_mem_nil, or_false] at ho
    rcases ho with rfl | rfl | rfl | rfl
    · exact key _ '=' (by decide) (by decide)
    · exact key _ '!' (by decide) (by decide)
    · exact key _ '=' (by decide) (by decide)
    · exact key _ '<' (by decide) (by decide)
  · refine ⟨["==".data, "!=".data, ">=".data, "<=".data, ">".data], _, rfl, ?_⟩
    intro o ho
    simp only [List.mem_cons, List.mem_singleton, List.not_mem_nil, or_false] at ho
    rcases ho with rfl | rfl | rfl | rfl | rfl
    · exact key _ '=' (by decide) (by decide)
    · exact key _ '!' (by decide) (by decide)
    · exact key _ '>' (by decide) (by decide)
    · exact key _ '=' (by decide) (by decide)
    · exact key _ '>' (by decide) (by decide)

/-- `Filter.parse_from_llm` on a clean filter string with two occurrences of
the same operator: the split happens at the second (last) occurrence. -/
theorem parse_double_op {a₁ a₂ b op : List Char}
    (hmem : op ∈ supportedOperators)
    (h₁ : sideClean a₁) (h₂ : sideClean a₂) (h₃ : sideClean b)
    (hne : pyStrip a₁ ≠ []) (hpar : (pyStrip a₁).head? ≠ some '(') :
    Filter.parse_from_llm (a₁ ++ op ++ a₂ ++ op ++ b) =
      .ok ⟨pyStrip (a₁ ++ op ++ a₂), pyStrip b, op⟩ := by
  have hA : ∀ c ∈ lstrip a₁, c ∉ opChars := fun c hc =>
    (h₁ c ((List.dropWhile_suffix isPyWs).subset hc)).1
  have h₂' : ∀ c ∈ a₂, c ∉ opChars := fun c hc => (h₂ c hc).1
  have hB : ∀ c ∈ rstrip b, c ∉ opChars := fun c hc =>
    (h₃ c ((rstrip_isPre b).subset hc)).1
  have hdisp := supported_pre_nil_double hA h₂' hB hmem
  have hmem' := hmem
  simp only [supportedOperators, List.mem_cons, List.not_mem_nil, or_false] at hmem'
  rcases hmem' with rfl | rfl | rfl | rfl | rfl | rfl
  · exact parse_double_op_core
      (show ("==".data : List Char) = '=' :: ['='] from rfl)
      (show ("==".data : List Char).getLast? = some '=' from rfl)
      (by decide) (by decide) (by decide) hdisp h₁ h₂ h₃ hne hpar
  · exact parse_double_op_core
      (show ("!=".data : List Char) = '!' :: ['='] from rfl)
      (show ("!=".data : List Char).getLast? = some '=' from rfl)
      (by decide) (by decide) (by decide) hdisp h₁ h₂ h₃ hne hpar
  · exact parse_double_op_core
      (show (">=".data : List Char) = '>' :: ['='] from rfl)
      (show (">=".data : List Char).getLast? = some '=' from rfl)
      (by decide) (by decide) (by decide) hdisp h₁ h₂ h₃ hne hpar
  · exact parse_double_op_core
      (show ("<=".data : List Char) = '<' :: ['='] from rfl)
      (show ("<=".data : List Char).getLast? = some '=' from rfl)
      (by decide) (by decide) (by decide) hdisp h₁ h₂ h₃ hne hpar
  · exact parse_double_op_core
      (show (">".data : List Char) = '>' :: [] from rfl)
      (show (">".data : List Char).getLast? = some '>' from rfl)
      (by decide) (by decide) (by decide) hdisp h₁ h₂ h₃ hne hpar
  · exact parse_double_op_core
      (show ("<".data : List Char) = '<' :: [] from rfl)
      (show ("<".data : List Char).getLast? = some '<' from rfl)
      (by decide) (by decide) (by decide) hdisp h₁ h₂ h₃ hne hpar

/-! ## Lemmas about the fence extraction of `parse_json` -/

theorem jsonLoads_error_of_badStart {c : Char} (s : List Char)
    (hws : isJsonWs c = false)
    (hbrace : c ≠ '{') (hbrack : c ≠ '[') (hquote : c ≠ '"')
    (ht : c ≠ 't') (hf : c ≠ 'f') (hn : c ≠ 'n') (hminus : c ≠ '-')
    (hdig : c.isDigit = false) :
    jsonLoads (c :: s) = .error .jsonDecodeError := by
  unfold jsonLoads
  rw [List.dropWhile_cons, if_neg (by simp [hws])]
  simp [parseValue, hbrace, hbrack, hquote, ht, hf, hn, hminus, hdig]

theorem findFirstSub_eq_zero {w s : List Char} (h0 : 0 ∈ occList w s) :
    findFirstSub w s = some 0 := by
  unfold findFirstSub
  have hs := occList_sorted w s
  cases hl : occList w s with
  | nil => rw [hl] at h0; simp at h0
  | cons a t =>
    rw [hl] at h0 hs
    rcases List.mem_cons.mp h0 with rfl | hmem
    · rfl
    · have := (List.sorted_cons.mp hs).1 0 hmem
      omega

/-- Occurrences of the plain fence in a response with a json-qualified
opening fence but no further backtick: only the opening one. -/
theorem occList_ticks_open_json {p : List Char} (hp : btick ∉ p) :
    occList fenceTicks ("```json".data ++ p) = [0] := by
  have h7 : occList fenceTicks p = [] :=
    occList_eq_nil_of_head_not_mem rfl hp
  have c0 : prefixAt fenceTicks
      (btick :: btick :: btick :: 'j' :: 's' :: 'o' :: 'n' :: p) = true := rfl
  have c1 : prefixAt fenceTicks
      (btick :: btick :: 'j' :: 's' :: 'o' :: 'n' :: p) = false := rfl
  have c2 : prefixAt fenceTicks (btick :: 'j' :: 's' :: 'o' :: 'n' :: p) = false := rfl
  have c3 : prefixAt fenceTicks ('j' :: 's' :: 'o' :: 'n' :: p) = false := rfl
  have c4 : prefixAt fenceTicks ('s' :: 'o' :: 'n' :: p) = false := rfl
  have c5 : prefixAt fenceTicks ('o' :: 'n' :: p) = false := rfl
  have c6 : prefixAt fenceTicks ('n' :: p) = false := rfl
  show occList fenceTicks
    (btick :: btick :: btick :: 'j' :: 's' :: 'o' :: 'n' :: p) = [0]
  simp only [occList]
  rw [c0, c1, c2, c3, c4, c5, c6, h7]
  simp

/-- Occurrences of the json-qualified opening fence in such a response:
only at the very front. -/
theorem occList_openJson_open_json {p : List Char} (hp : btick ∉ p) :
    occList fenceOpenJson ("```json".data ++ p) = [0] := by
  have h7 : occList fenceOpenJson p = [] :=
    occList_eq_nil_of_head_not_mem rfl hp
  have c0 : prefixAt fenceOpenJson
      (btick :: btick :: btick :: 'j' :: 's' :: 'o' :: 'n' :: p) = true := rfl
  have c1 : prefixAt fenceOpenJson
      (btick :: btick :: 'j' :: 's' :: 'o' :: 'n' :: p) = false := rfl
  have c2 : prefixAt fenceOpenJson (btick :: 'j' :: 's' :: 'o' :: 'n' :: p) = false := rfl
  have c3 : prefixAt fenceOpenJson ('j' :: 's' :: 'o' :: 'n' :: p) = false := rfl
  have c4 : prefixAt fenceOpenJson ('s' :: 'o' :: 'n' :: p) = false := rfl
  have c5 : prefixAt fenceOpenJson ('o' :: 'n' :: p) = false := rfl
  have c6 : prefixAt fenceOpenJson ('n' :: p) = false := rfl
  show occList fenceOpenJson
    (btick :: btick :: btick :: 'j' :: 's' :: 'o' :: 'n' :: p) = [0]
  simp only [occList]
  rw [c0, c1, c2, c3, c4, c5, c6, h7]
  simp

theorem occList_cons (w : List Char) (c : Char) (cs : List Char) :
    occList w (c :: cs) =
      (if prefixAt w (c :: cs) then [0] else []) ++
        (occList w cs).map (· + 1) := rfl

theorem occList_ticks_after (p : List Char) (hp : btick ∉ p) :
    occList fenceTicks (p ++ "```".data) = [p.length] := by
  rw [@occList_append_shift fenceTicks btick rfl p hp ("```".data)]
  rw [show occList fenceTicks ("```".data) = [0] from rfl]
  simp

theorem occList_openJson_after (p : List Char) (hp : btick ∉ p) :
    occList fenceOpenJson (p ++ "```".data) = [] := by
  rw [@occList_append_shift fenceOpenJson btick rfl p hp ("```".data)]
  rw [show occList fenceOpenJson ("```".data) = [] from rfl]
  rfl

/-- Occurrences of the plain fence in a fully fenced json-qualified
response: the opening one and the closing one. -/
theorem occList_ticks_fenced_json {p : List Char} (hp : btick ∉ p) :
    occList fenceTicks ("```json".data ++ p ++ "```".data) =
      [0, p.length + 7] := by
  have h7 := occList_ticks_after p hp
  have c0 : prefixAt fenceTicks
      (btick :: btick :: btick :: 'j' :: 's' :: 'o' :: 'n' ::
        (p ++ "```".data)) = true := rfl
  have c1 : prefixAt fenceTicks
      (btick :: btick :: 'j' :: 's' :: 'o' :: 'n' :: (p ++ "```".data)) = false := rfl
  have c2 : prefixAt fenceTicks
      (btick :: 'j' :: 's' :: 'o' :: 'n' :: (p ++ "```".data)) = false := rfl
  have c3 : prefixAt fenceTicks ('j' :: 's' :: 'o' :: 'n' :: (p ++ "```".data)) = false := rfl
  have c4 : prefixAt fenceTicks ('s' :: 'o' :: 'n' :: (p ++ "```".data)) = false := rfl
  have c5 : prefixAt fenceTicks ('o' :: 'n' :: (p ++ "```".data)) = false := rfl
  have c6 : prefixAt fenceTicks ('n' :: (p ++ "```".data)) = false := rfl
  show occList fenceTicks
    (btick :: btick :: btick :: 'j' :: 's' :: 'o' :: 'n' ::
      (p ++ "```".data)) = [0, p.length + 7]
  simp only [occList]
  rw [c0, c1, c2, c3, c4, c5, c6, h7]
  simp

/-- The json-qualified opening fence occurs only at the front of a fully
fenced json-qualified response. -/
theorem occList_openJson_fenced_json {p : List Char} (hp : btick ∉ p) :
    occList fenceOpenJson ("```json".data ++ p ++ "```".data) = [0] := by
  have h7 := occList_openJson_after p hp
  have c0 : prefixAt fenceOpenJson
      (btick :: btick :: btick :: 'j' :: 's' :: 'o' :: 'n' ::
        (p ++ "```".data)) = true := rfl
  have c1 : prefixAt fenceOpenJson
      (btick :: btick :: 'j' :: 's' :: 'o' :: 'n' :: (p ++ "```".data)) = false := rfl
  have c2 : prefixAt fenceOpenJson
      (btick :: 'j' :: 's' :: 'o' :: 'n' :: (p ++ "```".data)) = false := rfl
  have c3 : prefixAt fenceOpenJson ('j' :: 's' :: 'o' :: 'n' :: (p ++ "```".data)) = false := rfl
  have c4 : prefixAt fenceOpenJson ('s' :: 'o' :: 'n' :: (p ++ "```".data)) = false := rfl
  have c5 : prefixAt fenceOpenJson ('o' :: 'n' :: (p ++ "```".data)) = false := rfl
  have c6 : prefixAt fenceOpenJson ('n' :: (p ++ "```".data)) = false := rfl
  show occList fenceOpenJson
    (btick :: btick :: btick :: 'j' :: 's' :: 'o' :: 'n' ::
      (p ++ "```".data)) = [0]
  simp only [occList]
  rw [c0, c1, c2, c3, c4, c5, c6, h7]
  simp

/-- Occurrences of the plain fence in a fully fenced plain response whose
payload is nonempty and backtick-free. -/
theorem occList_ticks_fenced_plain {q : Char} {p' : List Char}
    (hq : q ≠ btick) (hp : btick ∉ q :: p') :
    occList fenceTicks ("```".data ++ (q :: p') ++ "```".data) =
      [0, (q :: p').length + 3] := by
  have h3 := occList_ticks_after (q :: p') hp
  have hbq : (btick == q) = false := beq_eq_false_iff_ne.mpr (Ne.symm hq)
  have c0 : prefixAt fenceTicks
      (btick :: btick :: btick :: ((q :: p') ++ "```".data)) = true := rfl
  have c1 : prefixAt fenceTicks
      (btick :: btick :: ((q :: p') ++ "```".data)) = false := by
    show prefixAt (btick :: btick :: btick :: [])
      (btick :: btick :: q :: (p' ++ "```".data)) = false
    simp [prefixAt, hbq]
  have c2 : prefixAt fenceTicks
      (btick :: ((q :: p') ++ "```".data)) = false := by
    show prefixAt (btick :: btick :: btick :: [])
      (btick :: q :: (p' ++ "```".data)) = false
    simp [prefixAt, hbq]
  show occList fenceTicks
    (btick :: btick :: btick :: ((q :: p') ++ "```".data)) =
      [0, (q :: p').length + 3]
  rw [occList_cons, c0, occList_cons, c1, occList_cons, c2, h3]
  simp

/-! ## Evaluation of `parse_json` on the fence shapes of the claims -/

/-- A json-qualified opening fence with no closing fence: the fallback regex
finds no closing delimiter and the original decode error is re-raised. -/
theorem parse_json_missing_close {p : List Char} (hp : btick ∉ p) :
    parse_json ("```json".data ++ p) = .error .jsonDecodeError := by
  have hjson : jsonLoads ("```json".data ++ p) = .error .jsonDecodeError := by
    show jsonLoads (btick :: ("``json".data ++ p)) = .error .jsonDecodeError
    exact jsonLoads_error_of_badStart _ (by decide) (by decide) (by decide)
      (by decide) (by decide) (by decide) (by decide) (by decide) (by decide)
  have hcont : containsSub fenceOpenJson ("```json".data ++ p) = true := by
    unfold containsSub
    rw [occList_openJson_open_json hp]
    rfl
  have hfirst : findFirstSub fenceOpenJson ("```json".data ++ p) = some 0 := by
    apply findFirstSub_eq_zero
    rw [occList_openJson_open_json hp]
    simp
  have hlastnone : findLastSubFrom fenceTicks ("```json".data ++ p)
      (0 + fenceOpenJson.length) = none := by
    unfold findLastSubFrom
    rw [occList_ticks_open_json hp]
    rfl
  have hsearch : fenceSearch fenceOpenJson fenceTicks
      ("```json".data ++ p) = none := by
    unfold fenceSearch
    rw [hfirst, Option.some_bind, hlastnone]
    rfl
  unfold parse_json
  rw [hjson, hcont]
  simp only [if_true]
  rw [hsearch]

/-- A fully fenced json-qualified response: the regex extracts exactly the
payload between the fences, which is then decoded. -/
theorem parse_json_fenced_json {p : List Char} {v : Json} (hp : btick ∉ p)
    (hv : jsonLoads p = .ok v) :
    parse_json ("```json".data ++ p ++ "```".data) = .ok v := by
  have hjson : jsonLoads ("```json".data ++ p ++ "```".data) =
      .error .jsonDecodeError := by
    show jsonLoads (btick :: ("``json".data ++ p ++ "```".data)) =
      .error .jsonDecodeError
    exact jsonLoads_error_of_badStart _ (by decide) (by decide) (by decide)
      (by decide) (by decide) (by decide) (by decide) (by decide) (by decide)
  have hcont : containsSub fenceOpenJson
      ("```json".data ++ p ++ "```".data) = true := by
    unfold containsSub
    rw [occList_openJson_fenced_json hp]
    rfl
  have hfirst : findFirstSub fenceOpenJson
      ("```json".data ++ p ++ "```".data) = some 0 := by
    apply findFirstSub_eq_zero
    rw [occList_openJson_fenced_json hp]
    simp
  have hlast : findLastSubFrom fenceTicks ("```json".data ++ p ++ "```".data)
      (0 + fenceOpenJson.length) = some (p.length + 7) := by
    unfold findLastSubFrom
    rw [occList_ticks_fenced_json hp]
    show ([0, p.length + 7].filter (fun i => decide (7 ≤ i))).getLast? =
      some (p.length + 7)
    rw [List.filter_cons, List.filter_cons]
    simp
  have hdrop : ("```json".data ++ p ++ "```".data).drop 7 = p ++ "```".data := by
    rw [List.append_assoc]
    exact List.drop_left' (by rfl)
  have htake : (p ++ "```".data).take p.length = p := List.take_left p _
  have hsearch : fenceSearch fenceOpenJson fenceTicks
      ("```json".data ++ p ++ "```".data) = some p := by
    unfold fenceSearch
    rw [hfirst, Option.some_bind, hlast, Option.map_some']
    show some ((("```json".data ++ p ++ "```".data).drop 7).take (p.length + 7 - 7)) = some p
    rw [hdrop]
    have : p.length + 7 - 7 = p.length := by omega
    rw [this, htake]
  unfold parse_json
  rw [hjson, hcont]
  simp only [if_true]
  rw [hsearch]
  exact hv

/-- A fully fenced plain response (no `json` qualifier anywhere): the plain
fence pattern extracts exactly the payload between the fences. -/
theorem parse_json_fenced_plain {q : Char} {p' : List Char} {v : Json}
    (hq : q ≠ btick) (hp : btick ∉ q :: p')
    (hnotjson : containsSub fenceOpenJson
      ("```".data ++ (q :: p') ++ "```".data) = false)
    (hv : jsonLoads (q :: p') = .ok v) :
    parse_json ("```".data ++ (q :: p') ++ "```".data) = .ok v := by
  have hjson : jsonLoads ("```".data ++ (q :: p') ++ "```".data) =
      .error .jsonDecodeError := by
    show jsonLoads (btick :: ("``".data ++ (q :: p') ++ "```".data)) =
      .error .jsonDecodeError
    exact jsonLoads_error_of_badStart _ (by decide) (by decide) (by decide)
      (by decide) (by decide) (by decide) (by decide) (by decide) (by decide)
  have hocc := occList_ticks_fenced_plain hq hp
  have hfirst : findFirstSub fenceTicks
      ("```".data ++ (q :: p') ++ "```".data) = some 0 := by
    apply findFirstSub_eq_zero
    rw [hocc]
    simp
  have hlast : findLastSubFrom fenceTicks ("```".data ++ (q :: p') ++ "```".data)
      (0 + fenceTicks.length) = some ((q :: p').length + 3) := by
    unfold findLastSubFrom
    rw [hocc]
    show ([0, (q :: p').length + 3].filter (fun i => decide (3 ≤ i))).getLast? =
      some ((q :: p').length + 3)
    rw [List.filter_cons, List.filter_cons]
    simp
  have hdrop : ("```".data ++ (q :: p') ++ "```".data).drop 3 =
      (q :: p') ++ "```".data := by
    rw [List.append_assoc]
    exact List.drop_left' (by rfl)
  have htake : ((q :: p') ++ "```".data).take (q :: p').length = q :: p' :=
    List.take_left _ _
  have hsearch : fenceSearch fenceTicks fenceTicks
      ("```".data ++ (q :: p') ++ "```".data) = some (q :: p') := by
    unfold fenceSearch
    rw [hfirst, Option.some_bind, hlast, Option.map_some']
    show some ((("```".data ++ (q :: p') ++ "```".data).drop 3).take
      ((q :: p').length + 3 - 3)) = some (q :: p')
    rw [hdrop]
    have : (q :: p').length + 3 - 3 = (q :: p').length := by omega
    rw [this, htake]
  unfold parse_json
  rw [hjson, hnotjson, if_neg (by simp)]
  simp only [hsearch]
  exact hv

/-- A response whose payload is wrapped in `<json>...</json>` tags: the
whole text is not valid JSON and neither fence pattern matches, so the
decode error is re-raised — the tag convention is not recognized. -/
theorem parse_json_tagged {p : List Char} (hp : btick ∉ p) :
    parse_json ("<json>".data ++ p ++ "</json>".data) =
      .error .jsonDecodeError := by
  have hjson : jsonLoads ("<json>".data ++ p ++ "</json>".data) =
      .error .jsonDecodeError := by
    show jsonLoads ('<' :: ("json>".data ++ p ++ "</json>".data)) =
      .error .jsonDecodeError
    exact jsonLoads_error_of_badStart _ (by decide) (by decide) (by decide)
      (by decide) (by decide) (by decide) (by decide) (by decide) (by decide)
  have hmem : btick ∉ "<json>".data ++ p ++ "</json>".data := by
    intro h
    rcases List.mem_append.mp h with h1 | h2
    · rcases List.mem_append.mp h1 with ha | hb
      · revert ha; decide
      · exact hp hb
    · revert h2; decide
  have hocc1 : occList fenceOpenJson ("<json>".data ++ p ++ "</json>".data) = [] :=
    occList_eq_nil_of_head_not_mem rfl hmem
  have hocc2 : occList fenceTicks ("<json>".data ++ p ++ "</json>".data) = [] :=
    occList_eq_nil_of_head_not_mem rfl hmem
  have hcont : containsSub fenceOpenJson
      ("<json>".data ++ p ++ "</json>".data) = false := by
    unfold containsSub
    rw [hocc1]
    rfl
  have hsearch : fenceSearch fenceTicks fenceTicks
      ("<json>".data ++ p ++ "</json>".data) = none := by
    unfold fenceSearch findFirstSub
    rw [hocc2]
    rfl
  unfold parse_json
  rw [hjson, hcont, if_neg (by simp)]
  simp only [hsearch]

/-! ## Dissecting successful runs of `PlotConfig.from_json` -/

theorem bindE_ok {α β : Type} {x : Except PyErr α} {f : α → Except PyErr β}
    {b : β} (h : (x >>= f) = .ok b) : ∃ a, x = .ok a ∧ f a = .ok b := by
  cases x with
  | ok a => exact ⟨a, rfl, h⟩
  | error e => simp [Bind.bind, Except.bind] at h

theorem getKey_setKey_ne {kvs : List (List Char × Json)} {k k' : List Char}
    (hne : k' ≠ k) (v : Json) : getKey (setKey kvs k v) k' = getKey kvs k' := by
  induction kvs with
  | nil =>
    simp only [setKey, getKey]
    rw [if_neg (fun h => hne h.symm)]
  | cons entry rest ih =>
    obtain ⟨ek, ev⟩ := entry
    by_cases hek : ek = k
    · subst hek
      simp only [setKey, if_pos rfl, getKey]
      rw [if_neg (fun h => hne h.symm), if_neg (fun h => hne h.symm)]
    · simp only [setKey, if_neg hek, getKey]
      by_cases hek' : ek = k'
      · rw [if_pos hek', if_pos hek']
      · rw [if_neg hek', if_neg hek', ih]

/-- A successful assembly determines the chart type and the y-axis through
`ctStep` and `yStep`. -/
theorem from_json_ok_parts {kvs0 : List (List Char × Json)} {cfg : PlotConfig}
    (h : PlotConfig.from_json (.obj kvs0) = .ok cfg) :
    ∃ ct, ctStep kvs0 = .ok ct ∧ cfg.chart_type = ct ∧
      yStep (pieFix kvs0 ct) ct = .ok cfg.y := by
  simp only [PlotConfig.from_json] at h
  by_cases h1 : (getKey kvs0 "chart_type".data).isNone
  · rw [if_pos h1] at h; simp at h
  · rw [if_neg h1] at h
    by_cases h2 : (getKey kvs0 "y".data).isNone
    · rw [if_pos h2] at h; simp at h
    · rw [if_neg h2] at h
      obtain ⟨ct, hct, h⟩ := bindE_ok h
      obtain ⟨x, hx, h⟩ := bindE_ok h
      obtain ⟨y, hy, h⟩ := bindE_ok h
      obtain ⟨fs, hfs, h⟩ := bindE_ok h
      obtain ⟨col, hcol, h⟩ := bindE_ok h
      obtain ⟨bm, hbm, h⟩ := bindE_ok h
      obtain ⟨sc, hsc, h⟩ := bindE_ok h
      obtain ⟨so, hso, h⟩ := bindE_ok h
      obtain ⟨hz, hhz, h⟩ := bindE_ok h
      obtain ⟨lim, hlim, h⟩ := bindE_ok h
      have hcfg : cfg = ⟨ct, fs, x, y, col, bm, sc, so, hz, lim⟩ := by
        simpa [pure, Except.pure] using h.symm
      refine ⟨ct, hct, ?_, ?_⟩
      · rw [hcfg]
      · rw [hcfg]
        exact hy

theorem getKey_pieFix_y (kvs : List (List Char × Json)) (ct : ChartType) :
    getKey (pieFix kvs ct) "y".data = getKey kvs "y".data := by
  unfold pieFix
  by_cases h : pyFalsy ((getKey kvs "x".data).getD .null) ∧ ct = ChartType.pie
  · rw [if_pos h]
    exact getKey_setKey_ne (by decide) _
  · rw [if_neg h]

/-! ## Aggregation default-inference lemmas -/

theorem aggResolved_avg {d : List (List Char × Json)}
    (hagg : getKey d "aggregation".data = none ∨
      ∃ v, getKey d "aggregation".data = some v ∧ pyFalsy v = true)
    {cv : Json} (hcol : getKey d "column".data = some cv)
    (hcv : pyFalsy cv = false) :
    aggResolved d true = .str "AVG".data := by
  have h0 : pyFalsy ((getKey d "aggregation".data).getD .null) = true := by
    rcases hagg with h | ⟨v, hv, hfv⟩
    · rw [h]; rfl
    · rw [hv]; exact hfv
  have hne : jsonEqStr (Json.str "AVG".data) "COUNTROWS".data = false := rfl
  simp [aggResolved, h0, hcol, hcv, hne]

theorem aggResolved_countrows {d : List (List Char × Json)}
    (hcol : getKey d "column".data = none ∨
      ∃ v, getKey d "column".data = some v ∧ pyFalsy v = true) :
    aggResolved d true = .str "COUNTROWS".data := by
  have h0 : pyFalsy ((getKey d "column".data).getD .null) = true := by
    rcases hcol with h | ⟨v, hv, hfv⟩
    · rw [h]; rfl
    · rw [hv]; exact hfv
  simp [aggResolved, h0]

theorem aggResolved_count {d : List (List Char × Json)} (b : Bool)
    (hagg : getKey d "aggregation".data = some (Json.str "COUNTROWS".data))
    {cv : Json} (hcol : getKey d "column".data = some cv)
    (hcv : pyFalsy cv = false) :
    aggResolved d b = .str "COUNT".data := by
  have hfr : pyFalsy (Json.str "COUNTROWS".data) = false := rfl
  have heq : jsonEqStr (Json.str "COUNTROWS".data) "COUNTROWS".data = true := rfl
  simp [aggResolved, hagg, hcol, hcv, hfr, heq]

/-- A successful y-axis normalization determines the aggregation through
`aggResolved`. -/
theorem yaxis_ok_aggregation {d : List (List Char × Json)} {b : Bool}
    {y : YAxis} (h : YAxis.parse_from_llm d b = .ok y) :
    (if pyFalsy (aggResolved d b) then pure none
     else some <$> enumFromJson AggregationType.fromValue (aggResolved d b)) =
      .ok y.aggregation := by
  simp only [YAxis.parse_from_llm] at h
  obtain ⟨agg, hagg, h⟩ := bindE_ok h
  obtain ⟨colv, hcol, h⟩ := bindE_ok h
  obtain ⟨mn, hmn, h⟩ := bindE_ok h
  obtain ⟨mx, hmx, h⟩ := bindE_ok h
  obtain ⟨lb, hlb, h⟩ := bindE_ok h
  have hy : y = ⟨colv, agg, mn, mx, lb⟩ := by
    simpa [pure, Except.pure] using h.symm
  rw [hy]
  exact hagg

/-! # The claims -/

/-- C8: for every valid filter string containing exactly one occurrence of a
supported operator — modelled as `lhs ++ op ++ rhs` with operator-free and
newline-free sides whose stripped left side is nonempty and does not start
with a parenthesis or backtick — parsing and then rendering the escaped
form leaves the operator and the (trimmed) right-hand literal unchanged and
wraps the left-hand column name in backticks exactly once; in particular
`"a b c < 4"` parses to lhs `a b c`, op `<`, rhs `4`, and renders with the
left side backtick-quoted once. -/
theorem c8_parse_escape_roundtrip :
    (∀ lhs op rhs : List Char, op ∈ supportedOperators →
      sideClean lhs → sideClean rhs →
      pyStrip lhs ≠ [] → (pyStrip lhs).head? ≠ some '(' →
      (pyStrip lhs).head? ≠ some btick →
      Filter.parse_from_llm (lhs ++ op ++ rhs) =
        .ok ⟨pyStrip lhs, pyStrip rhs, op⟩ ∧
      Filter.escaped ⟨pyStrip lhs, pyStrip rhs, op⟩ =
        .ok ((btick :: pyStrip lhs ++ [btick]) ++ [' '] ++ op ++ [' '] ++
          pyStrip rhs)) ∧
    Filter.parse_from_llm "a b c < 4".data =
      .ok ⟨"a b c".data, "4".data, "<".data⟩ ∧
    Filter.escaped ⟨"a b c".data, "4".data, "<".data⟩ =
      .ok "`a b c` < 4".data := by
  refine ⟨?_, rfl, rfl⟩
  intro lhs op rhs hmem hl hr hne hpar hbt
  refine ⟨parse_single_op hmem hl hr hne hpar, ?_⟩
  cases hL : pyStrip lhs with
  | nil => exact absurd hL hne
  | cons c t =>
    have hcb : c ≠ btick := fun h => hbt (by rw [hL, h]; rfl)
    simp only [Filter.escaped]
    rw [if_neg hcb]

/-- C8 witness: a concrete clean filter string with one `>=`. -/
theorem c8_parse_escape_roundtrip_witness :
    Filter.parse_from_llm ("price ".data ++ ">=".data ++ " 100".data) =
      .ok ⟨pyStrip "price ".data, pyStrip " 100".data, ">=".data⟩ ∧
    Filter.escaped ⟨pyStrip "price ".data, pyStrip " 100".data, ">=".data⟩ =
      .ok ((btick :: pyStrip "price ".data ++ [btick]) ++ [' '] ++
        ">=".data ++ [' '] ++ pyStrip " 100".data) :=
  c8_parse_escape_roundtrip.1 "price ".data ">=".data " 100".data
    (by decide) (by decide) (by decide) (by decide) (by decide) (by decide)

/-- C9 counterexample: on a string with two occurrences of `<`, the
left-hand side is the text before the second occurrence, not the text
before the first occurrence as the claim states. -/
theorem c9_counterexample :
    Filter.parse_from_llm "a < b < c".data =
      .ok ⟨"a < b".data, "c".data, "<".data⟩ ∧
    ("a < b".data : List Char) ≠ "a".data := ⟨rfl, by decide⟩

/-- C9 (amended): the scan still tries the operators in the fixed priority
order `==, !=, >=, <=, >, <`, but the greedy `(.*)` of
`re.match(rf"^(.*){op}(.*?)$", f)` splits at the last (rightmost)
occurrence of the first matching operator, trimming both sides; for a
string with two occurrences of the same operator the left-hand side is the
text before the second occurrence. -/
theorem c9_split_at_last_occurrence :
    ∀ a₁ a₂ b op : List Char, op ∈ supportedOperators →
      sideClean a₁ → sideClean a₂ → sideClean b →
      pyStrip a₁ ≠ [] → (pyStrip a₁).head? ≠ some '(' →
      Filter.parse_from_llm (a₁ ++ op ++ a₂ ++ op ++ b) =
        .ok ⟨pyStrip (a₁ ++ op ++ a₂), pyStrip b, op⟩ :=
  fun _ _ _ _ hm h1 h2 h3 hne hpar => parse_double_op hm h1 h2 h3 hne hpar

/-- C9 witness: `"a < b < c"` assembled from its pieces. -/
theorem c9_split_at_last_occurrence_witness :
    Filter.parse_from_llm ("a ".data ++ "<".data ++ " b ".data ++
        "<".data ++ " c".data) =
      .ok ⟨pyStrip ("a ".data ++ "<".data ++ " b ".data), pyStrip " c".data,
        "<".data⟩ :=
  c9_split_at_last_occurrence "a ".data " b ".data " c".data "<".data
    (by decide) (by decide) (by decide) (by decide) (by decide) (by decide)

/-- C10: `Filter.parse_from_llm` on the empty string or a whitespace-only
string fails with `IndexError` from the unguarded `f[0]` in the parenthesis
stripping, not with the documented `ValueError`; every input whose stripped
form is nonempty either returns a `Filter` or raises that `ValueError`. -/
theorem c10_empty_input_index_error :
    Filter.parse_from_llm [] = .error .indexError ∧
    Filter.parse_from_llm "   ".data = .error .indexError ∧
    ∀ f : List Char, pyStrip f ≠ [] →
      (∃ flt, Filter.parse_from_llm f = .ok flt) ∨
      (∃ msg, Filter.parse_from_llm f = .error (.valueError msg)) := by
  refine ⟨rfl, rfl, ?_⟩
  intro f hne
  cases hps : pyStrip f with
  | nil => exact absurd hps hne
  | cons c t =>
    have hstep : Filter.parse_from_llm f = parseStripped c t := by
      unfold Filter.parse_from_llm
      rw [hps]
    rw [hstep]
    simp only [parseStripped]
    cases htry : tryOps supportedOperators
        (if c = '(' ∧ (c :: t).getLast? = some ')'
         then ((c :: t).drop 1).dropLast else c :: t) with
    | some flt => exact Or.inl ⟨flt, rfl⟩
    | none => exact Or.inr ⟨_, rfl⟩

/-- C10 witness: a nonempty input parses or raises the `ValueError`. -/
theorem c10_empty_input_index_error_witness :
    (∃ flt, Filter.parse_from_llm "a == 3".data = .ok flt) ∨
    (∃ msg, Filter.parse_from_llm "a == 3".data = .error (.valueError msg)) :=
  c10_empty_input_index_error.2.2 "a == 3".data (by decide)

/-- C5 counterexample: a configuration object with an absent `chart_type`
key fails the assembler's leading `assert "chart_type" in json_data` with
`AssertionError`; it is not coerced to BAR. -/
theorem c5_counterexample :
    PlotConfig.from_json (Json.obj
      [("y".data, Json.obj [("column".data, Json.str "price".data)])]) =
      .error .assertionError := rfl

/-- C5 (amended): a configuration object whose `chart_type` key is present
but falsy (empty string, null, …) or a letter-case variant of `"none"` is
coerced to BAR, and the assembler does not fail on this condition alone; an
absent `chart_type` key is instead a hard assertion failure. -/
theorem c5_chart_type_none_to_bar :
    (∀ (kvs : List (List Char × Json)) (ctv : Json) (cfg : PlotConfig),
      getKey kvs "chart_type".data = some ctv →
      (pyFalsy ctv = true ∨
        ∃ s, ctv = Json.str s ∧ lowerChars s = "none".data) →
      PlotConfig.from_json (.obj kvs) = .ok cfg →
      cfg.chart_type = ChartType.bar) ∧
    PlotConfig.from_json (Json.obj [("chart_type".data, Json.str "".data),
        ("y".data, Json.obj [("column".data, Json.str "price".data)])]) =
      .ok ⟨ChartType.bar, [], none,
        ⟨"price".data, some .AVG, none, none, none⟩,
        none, none, none, none, none, none⟩ ∧
    PlotConfig.from_json (Json.obj [("chart_type".data, Json.str "none".data),
        ("y".data, Json.obj [("column".data, Json.str "price".data)])]) =
      .ok ⟨ChartType.bar, [], none,
        ⟨"price".data, some .AVG, none, none, none⟩,
        none, none, none, none, none, none⟩ ∧
    PlotConfig.from_json (Json.obj [("chart_type".data, Json.str "None".data),
        ("y".data, Json.obj [("column".data, Json.str "price".data)])]) =
      .ok ⟨ChartType.bar, [], none,
        ⟨"price".data, some .AVG, none, none, none⟩,
        none, none, none, none, none, none⟩ := by
  refine ⟨?_, rfl, rfl, rfl⟩
  intro kvs ctv cfg hget hcase hok
  obtain ⟨ct, hct, hchart, -⟩ := from_json_ok_parts hok
  rw [hchart]
  unfold ctStep at hct
  rw [hget] at hct
  simp only [Option.getD_some] at hct
  rcases hcase with hfal | ⟨s, rfl, hlow⟩
  · rw [if_pos hfal] at hct
    have hval : (Except.ok ChartType.bar : Except PyErr ChartType) = .ok ct := hct
    exact (Except.ok.inj hval).symm
  · by_cases hfal : pyFalsy (Json.str s) = true
    · rw [if_pos hfal] at hct
      have hval : (Except.ok ChartType.bar : Except PyErr ChartType) = .ok ct := hct
      exact (Except.ok.inj hval).symm
    · rw [if_neg hfal] at hct
      have hct' : (if lowerChars s = "none".data then pure ChartType.bar
          else enumExcept ChartType.fromValue s : Except PyErr ChartType) =
          .ok ct := hct
      rw [if_pos hlow] at hct'
      have hval : (Except.ok ChartType.bar : Except PyErr ChartType) = .ok ct := hct'
      exact (Except.ok.inj hval).symm

/-- C5 witness: a `chart_type` of `"NONE"` is coerced to BAR. -/
theorem c5_chart_type_none_to_bar_witness :
    (⟨ChartType.bar, [], none, ⟨"price".data, some .AVG, none, none, none⟩,
      none, none, none, none, none, none⟩ : PlotConfig).chart_type =
      ChartType.bar :=
  c5_chart_type_none_to_bar.1
    [("chart_type".data, Json.str "NONE".data),
     ("y".data, Json.obj [("column".data, Json.str "price".data)])]
    (Json.str "NONE".data)
    ⟨ChartType.bar, [], none, ⟨"price".data, some .AVG, none, none, none⟩,
      none, none, none, none, none, none⟩
    rfl (Or.inr ⟨"NONE".data, rfl, rfl⟩) rfl

/-- C6 counterexample: a zero `bin_size` does not fail validation — it is
silently dropped by the `or None` coercion and normalization succeeds. -/
theorem c6_counterexample :
    XAxis.parse_from_llm [("column".data, Json.str "x".data),
      ("bin_size".data, Json.num 0)] =
      .ok ⟨"x".data, none, none, none, none, none⟩ := rfl

/-- C6 (amended): `bin_size` is not validated for positivity: a zero
`bin_size` is silently dropped to absent (falsy values are collapsed by
`or None`) and a negative `bin_size` is accepted and stored unchanged;
normalization succeeds in both cases. -/
theorem c6_bin_size_not_validated :
    (∀ col : List Char, col ≠ [] →
      XAxis.parse_from_llm [("column".data, Json.str col),
        ("bin_size".data, Json.num 0)] =
        .ok ⟨col, none, none, none, none, none⟩) ∧
    (∀ (col : List Char) (n : Int), col ≠ [] → n < 0 →
      XAxis.parse_from_llm [("column".data, Json.str col),
        ("bin_size".data, Json.num n)] =
        .ok ⟨col, some n, none, none, none, none⟩) := by
  constructor
  · intro col hcol
    have hig : col.isEmpty = false := by
      cases col with
      | nil => exact absurd rfl hcol
      | cons _ _ => rfl
    have hpf : pyFalsy (Json.str col) = false := hig
    have h2 : getTruthy [("column".data, Json.str col),
        ("bin_size".data, Json.num 0)] "column".data =
        some (Json.str col) := by
      show (if pyFalsy (Json.str col) = true then none
        else some (Json.str col)) = some (Json.str col)
      rw [hpf]
      rfl
    unfold XAxis.parse_from_llm
    rw [h2]
    rfl
  · intro col n hcol hn
    have hig : col.isEmpty = false := by
      cases col with
      | nil => exact absurd rfl hcol
      | cons _ _ => rfl
    have hnz : pyFalsy (Json.num n) = false := by
      simp only [pyFalsy, decide_eq_false_iff_not]
      omega
    have hpf : pyFalsy (Json.str col) = false := hig
    have h2 : getTruthy [("column".data, Json.str col),
        ("bin_size".data, Json.num n)] "column".data =
        some (Json.str col) := by
      show (if pyFalsy (Json.str col) = true then none
        else some (Json.str col)) = some (Json.str col)
      rw [hpf]
      rfl
    have h3 : getTruthy [("column".data, Json.str col),
        ("bin_size".data, Json.num n)] "bin_size".data =
        some (Json.num n) := by
      show (if pyFalsy (Json.num n) = true then none
        else some (Json.num n)) = some (Json.num n)
      rw [hnz]
      rfl
    unfold XAxis.parse_from_llm
    rw [h2, h3]
    rfl

/-- C6 witness: zero is dropped and `-3` is stored, for column `"x"`. -/
theorem c6_bin_size_not_validated_witness :
    XAxis.parse_from_llm [("column".data, Json.str "x".data),
      ("bin_size".data, Json.num (-3))] =
      .ok ⟨"x".data, some (-3), none, none, none, none⟩ :=
  c6_bin_size_not_validated.2 "x".data (-3) (by decide) (by decide)

/-- C7 (confirmed): the y-axis aggregation-inference rules.
1. When aggregation is required (any chart but scatter) and the LLM supplied
   a missing or falsy aggregation with a truthy column, AVG is inferred.
2. When aggregation is required and the column is missing or falsy,
   COUNTROWS is forced (regardless of the supplied aggregation).
3. When the column is truthy and the supplied aggregation is the string
   `"COUNTROWS"`, it is degraded to COUNT (for any `needs_aggregation`).
4. End to end through `PlotConfig.from_json`: a y-axis object carrying only
   a non-empty column gets aggregation AVG for every chart type except
   scatter, which gets no aggregation. -/
theorem c7_aggregation_inference :
    (∀ (d : List (List Char × Json)) (y : YAxis),
      (getKey d "aggregation".data = none ∨
        ∃ v, getKey d "aggregation".data = some v ∧ pyFalsy v = true) →
      (∃ cv, getKey d "column".data = some cv ∧ pyFalsy cv = false) →
      YAxis.parse_from_llm d true = .ok y →
      y.aggregation = some AggregationType.AVG) ∧
    (∀ (d : List (List Char × Json)) (y : YAxis),
      (getKey d "column".data = none ∨
        ∃ v, getKey d "column".data = some v ∧ pyFalsy v = true) →
      YAxis.parse_from_llm d true = .ok y →
      y.aggregation = some AggregationType.COUNTROWS) ∧
    (∀ (d : List (List Char × Json)) (y : YAxis) (b : Bool),
      getKey d "aggregation".data = some (Json.str "COUNTROWS".data) →
      (∃ cv, getKey d "column".data = some cv ∧ pyFalsy cv = false) →
      YAxis.parse_from_llm d b = .ok y →
      y.aggregation = some AggregationType.COUNT) ∧
    (∀ (kvs : List (List Char × Json)) (ycol : List Char) (cfg : PlotConfig),
      getKey kvs "y".data = some (Json.obj [("column".data, Json.str ycol)]) →
      ycol ≠ [] →
      PlotConfig.from_json (.obj kvs) = .ok cfg →
      cfg.y.aggregation =
        (if cfg.chart_type = ChartType.scatter then none
         else some AggregationType.AVG)) := by
  refine ⟨?_, ?_, ?_, ?_⟩
  · intro d y hagg hcol hok
    obtain ⟨cv, hc1, hc2⟩ := hcol
    have hres := yaxis_ok_aggregation hok
    rw [aggResolved_avg hagg hc1 hc2] at hres
    have hres' : (Except.ok (some AggregationType.AVG) :
        Except PyErr (Option AggregationType)) = .ok y.aggregation := hres
    exact (Except.ok.inj hres').symm
  · intro d y hcol hok
    have hres := yaxis_ok_aggregation hok
    rw [aggResolved_countrows hcol] at hres
    have hres' : (Except.ok (some AggregationType.COUNTROWS) :
        Except PyErr (Option AggregationType)) = .ok y.aggregation := hres
    exact (Except.ok.inj hres').symm
  · intro d y b hagg hcol hok
    obtain ⟨cv, hc1, hc2⟩ := hcol
    have hres := yaxis_ok_aggregation hok
    rw [aggResolved_count b hagg hc1 hc2] at hres
    have hres' : (Except.ok (some AggregationType.COUNT) :
        Except PyErr (Option AggregationType)) = .ok y.aggregation := hres
    exact (Except.ok.inj hres').symm
  · intro kvs ycol cfg hykey hycol hok
    obtain ⟨ct, hct, hchart, hy⟩ := from_json_ok_parts hok
    unfold yStep at hy
    rw [getKey_pieFix_y, hykey] at hy
    have hy' : YAxis.parse_from_llm [("column".data, Json.str ycol)]
        (decide (ct ≠ ChartType.scatter)) = .ok cfg.y := hy
    have hres := yaxis_ok_aggregation hy'
    have hcv : pyFalsy (Json.str ycol) = false := by
      cases ycol with
      | nil => exact absurd rfl hycol
      | cons _ _ => rfl
    by_cases hsc : ct = ChartType.scatter
    · rw [hchart, if_pos hsc]
      have hb : decide (ct ≠ ChartType.scatter) = false := by simp [hsc]
      rw [hb] at hres
      have ha : getKey [("column".data, Json.str ycol)]
          "aggregation".data = none := rfl
      have hne : jsonEqStr Json.null "COUNTROWS".data = false := rfl
      have hagg2 : aggResolved [("column".data, Json.str ycol)] false =
          Json.null := by
        simp [aggResolved, ha, hne]
      rw [hagg2] at hres
      have hres' : (Except.ok (none : Option AggregationType) :
          Except PyErr (Option AggregationType)) = .ok cfg.y.aggregation := hres
      exact (Except.ok.inj hres').symm
    · rw [hchart, if_neg hsc]
      have hb : decide (ct ≠ ChartType.scatter) = true := by simp [hsc]
      rw [hb] at hres
      have hagg2 : aggResolved [("column".data, Json.str ycol)] true =
          Json.str "AVG".data :=
        aggResolved_avg (Or.inl rfl) rfl hcv
      rw [hagg2] at hres
      have hres' : (Except.ok (some AggregationType.AVG) :
          Except PyErr (Option AggregationType)) = .ok cfg.y.aggregation := hres
      exact (Except.ok.inj hres').symm

/-- C7 witness: a y-axis dict with column `"price"` and no aggregation,
normalized with `needs_aggregation = true`, yields AVG. -/
theorem c7_aggregation_inference_witness :
    (⟨"price".data, some AggregationType.AVG, none, none, none⟩ :
      YAxis).aggregation = some AggregationType.AVG :=
  c7_aggregation_inference.1 [("column".data, Json.str "price".data)]
    ⟨"price".data, some AggregationType.AVG, none, none, none⟩
    (Or.inl rfl) ⟨Json.str "price".data, rfl, rfl⟩ rfl

/-- C3 counterexample: a response with an opening ` ```json ` fence but no
closing fence makes the extractor fail with the re-raised JSON decode
error, even though the payload after the fence is itself valid JSON — there
is no single-fence fallback. -/
theorem c3_counterexample :
    parse_json "```json\x7b\"a\": 1\x7d".data = .error .jsonDecodeError ∧
    jsonLoads "\x7b\"a\": 1\x7d".data =
      .ok (Json.obj [("a".data, Json.num 1)]) :=
  ⟨rfl, rfl⟩

/-- C3 (amended): when the closing fence is missing — the text is an
opening ` ```json ` fence followed by a payload containing no further
backtick — the extractor does NOT fall back to the remaining text: the
fence regex finds no match and the original JSON decode error is
re-raised. -/
theorem c3_missing_close_reraises :
    ∀ p : List Char, btick ∉ p →
      parse_json ("```json".data ++ p) = .error .jsonDecodeError :=
  fun _ hp => parse_json_missing_close hp

/-- C3 witness: the concrete payload `\x7b"a": 1\x7d` after a lone opening
fence is rejected. -/
theorem c3_missing_close_reraises_witness :
    parse_json ("```json".data ++ "\x7b\"a\": 1\x7d".data) =
      .error .jsonDecodeError :=
  c3_missing_close_reraises "\x7b\"a\": 1\x7d".data (by decide)

/-- C4 counterexample: a payload enclosed in `<json>...</json>` tags is NOT
recognized by the extractor — it fails with the JSON decode error even
though the inner span is valid JSON. -/
theorem c4_counterexample :
    parse_json "<json>[1]</json>".data = .error .jsonDecodeError ∧
    jsonLoads "[1]".data = .ok (Json.arr [Json.num 1]) :=
  ⟨rfl, rfl⟩

/-- C4 (amended): the extractor recognizes only triple-backtick fences
(json-qualified or plain): a json-qualified fenced payload and a plain
fenced payload are both located and decoded, but a payload enclosed in
`<json>...</json>` tags (with no backticks) is not recognized and fails
with the JSON decode error. -/
theorem c4_fences_only :
    (∀ (p : List Char) (v : Json), btick ∉ p → jsonLoads p = .ok v →
      parse_json ("```json".data ++ p ++ "```".data) = .ok v) ∧
    (∀ (q : Char) (p' : List Char) (v : Json), q ≠ btick →
      btick ∉ q :: p' →
      containsSub fenceOpenJson ("```".data ++ (q :: p') ++ "```".data) =
        false →
      jsonLoads (q :: p') = .ok v →
      parse_json ("```".data ++ (q :: p') ++ "```".data) = .ok v) ∧
    (∀ p : List Char, btick ∉ p →
      parse_json ("<json>".data ++ p ++ "</json>".data) =
        .error .jsonDecodeError) :=
  ⟨fun _ _ hp hv => parse_json_fenced_json hp hv,
   fun _ _ _ hq hp hnotjson hv => parse_json_fenced_plain hq hp hnotjson hv,
   fun _ hp => parse_json_tagged hp⟩

/-- C4 witness: `[1]` is extracted from a json-qualified fence, from a
plain fence, and rejected inside `<json>` tags. -/
theorem c4_fences_only_witness :
    parse_json ("```json".data ++ "[1]".data ++ "```".data) =
      .ok (Json.arr [Json.num 1]) ∧
    parse_json ("```".data ++ ('[' :: "1]".data) ++ "```".data) =
      .ok (Json.arr [Json.num 1]) ∧
    parse_json ("<json>".data ++ "[1]".data ++ "</json>".data) =
      .error .jsonDecodeError :=
  ⟨c4_fences_only.1 "[1]".data (Json.arr [Json.num 1]) (by decide) rfl,
   c4_fences_only.2.1 '[' "1]".data (Json.arr [Json.num 1]) (by decide)
     (by decide) (by decide) rfl,
   c4_fences_only.2.2 "[1]".data (by decide)⟩

/-- C1 (the code as given): the controller performs NO correction
round-trip.  For a model that answers with unparsable text, `query` makes
exactly one model call — the returned history is the input history plus a
single human/AI exchange — and immediately returns an UNKNOWN outcome (not
FAILED_TO_RENDER), without feeding any error back to the model and without
raising to the caller. -/
theorem c1_no_correction_roundtrip :
    ∀ (render : PlotConfig → Except PyErr Unit) (history : List Message)
      (q : List Char),
      query (fun _ => "garbage".data) render history q =
        .ok (⟨none, none, ResponseType.UNKNOWN, "garbage".data⟩,
          (history ++ [Message.human ('<' :: (q ++ ['>']))]) ++
            [Message.ai "garbage".data]) :=
  fun _ _ _ => rfl

/-- C2 (the code as given): the response-type enumeration has exactly the
three members SUCCESS, UNKNOWN and FAILED_TO_RENDER — there is no
NotRelated variant — and the literal response `"not related"` makes the
parser raise `AttributeError` (the attribute `ResponseType.NOT_RELATED`
does not exist) instead of returning a normal outcome. -/
theorem c2_not_related_attribute_error :
    parse_response "not related".data = .error .attributeError ∧
    ResponseType.values =
      [ResponseType.SUCCESS, ResponseType.UNKNOWN,
       ResponseType.FAILED_TO_RENDER] ∧
    ResponseType.attrLookup "NOT_RELATED".data = none :=
  ⟨rfl, rfl, rfl⟩

end Chat2Plot
